import Mathlib

/-!
Verification of the read-break read-parsing engine.

This file shallowly embeds the core of the repository:

* `src/read_break/logic.py` — mismatch metrics (`hamming`, `hamming35`) and
  bounded-offset fuzzy search (`wobble_match`), including Python slice
  semantics;
* `src/read_break/registry.py` — the fixed registry of metric functions;
* `src/read_break/parser.py` — the `ReadParser` pipeline compiler
  (globals resolution, constant freezing, parse-log initialization) and the
  per-read-pair evaluator `parse` with its six operation handlers.

Python `str` values are embedded as Lean `String`, Python `int` as `Int`
(Python integers are unbounded, so no wrap-around modelling is needed),
exceptions as an explicit `Except` error channel.  The Jinja template engine
and the `re` regex engine are external libraries (not part of the
repository's sources), so the restricted template expression language and
the regex handles are modelled from the specification, as marked by
doc comments below.
-/

namespace ReadBreak

/-! ## Python slice semantics

Python `s[i:j]` (unit step): negative indices count from the end, and both
endpoints are clamped into `[0, len(s)]`.  Slicing never raises. -/

/-- Normalize one Python slice endpoint against a string of length `n`:
negative values are offset by `n` and clamped below by `0`; non-negative
values are clamped above by `n`. -/
def pyIdx (n : Nat) (i : Int) : Nat :=
  if i < 0 then ((n : Int) + i).toNat else min i.toNat n

/-- Python slice `s[i:j]` with unit step. -/
def pySlice (s : String) (i j : Int) : String :=
  let cs := s.toList
  let n := cs.length
  String.mk ((cs.take (pyIdx n j)).drop (pyIdx n i))

/-! ## Mismatch metrics (`logic.py`) -/

/-- Character-list core of `hamming`: Python's `map(ne, x, y)` walks the two
strings in lockstep and stops at the shorter one, which is exactly
`List.zip`; summing the booleans counts the mismatched positions. -/
def hammingL (x y : List Char) : Nat :=
  (x.zip y).countP (fun p => p.1 != p.2)

/-- `hamming(x, y)` from `logic.py`: `sum(map(ne, x, y))`. -/
def hamming (x y : String) : Nat :=
  hammingL x.toList y.toList

/-- Character-list core of `hamming35`: the source loop over
`zip(from_string, to_string)` increments the distance at positions where
`a != b and not (a == from_letter and b == to_letter)`; the loop is
equivalently a count over the zipped pairs. -/
def hamming35L (x y : List Char) (f t : Char) : Nat :=
  (x.zip y).countP
    (fun p => p.1 != p.2 && !(p.1 == f && p.2 == t))

/-- `hamming35(from_string, to_string, from_letter, to_letter)` from
`logic.py`. -/
def hamming35 (x y : String) (f t : Char) : Nat :=
  hamming35L x.toList y.toList f t

/-! ## Bounded wobble search (`logic.py`) -/

/-- The offsets visited by `wobble_match`'s loop:
`range(base_offset, base_offset + max_wobble + 1)`.  A Python `range(a, b)`
has `max(0, b - a)` elements, here `max(0, max_wobble + 1)`. -/
def wobbleOffsets (base_offset max_wobble : Int) : List Int :=
  (List.range (max_wobble + 1).toNat).map (fun k : Nat => base_offset + (k : Int))

/-- The body of `wobble_match`'s `for` loop over the remaining offsets.
At each offset the substring `test[offset : offset + len(target)]` is
taken; a short substring (`len(test_substring) != len(target)`) breaks out
of the loop (overall result `-1`); a substring within `max_hamming`
mismatches returns the offset relative to `base_offset`. -/
def wobbleGo (test target : String) (h : String → String → Nat)
    (max_hamming base_offset : Int) : List Int → Int
  | [] => -1
  | off :: rest =>
    let sub := pySlice test off (off + (target.length : Int))
    if sub.length ≠ target.length then -1
    else if (h target sub : Int) ≤ max_hamming then off - base_offset
    else wobbleGo test target h max_hamming base_offset rest

/-- `wobble_match(test, target, max_wobble, max_hamming, base_offset,
hamming_func)` from `logic.py`. -/
def wobble_match (test target : String) (max_wobble max_hamming : Int)
    (base_offset : Int) (h : String → String → Nat) : Int :=
  wobbleGo test target h max_hamming base_offset
    (wobbleOffsets base_offset max_wobble)

/-- Offsets `start, start + 1, …, start + m - 1`: the general form of a
Python `range` with `m` elements, used to reason about `wobble_match`'s
loop by peeling one offset at a time. -/
def offsFrom (start : Int) (m : Nat) : List Int :=
  (List.range m).map (fun k : Nat => start + (k : Int))

/-! ## Registered metrics (`registry.py`) -/

/-- `HAMMING_FUNCS` from `registry.py`: the fixed, build-time registry of
metric functions the pipeline can reference by name. -/
def hammingFuncs : String → Option (String → String → Nat) := fun name =>
  if name = "hamming" then some hamming
  else if name = "hammingTC" then some (fun x y => hamming35 x y 'T' 'C')
  else if name = "hammingAG" then some (fun x y => hamming35 x y 'A' 'G')
  else none

/-! ## Values, contexts and errors (`parser.py`)

Per-read contexts hold heterogeneous Python values; dictionary keys can be
any value too (a frozen templated store-key can render to an int), so both
keys and values of the context are embedded as `Val`. -/

/-- A Python value as used by the engine: `int | str | bool | None`. -/
inductive Val
  | vint (n : Int)
  | vstr (s : String)
  | vbool (b : Bool)
  | vnone
deriving DecidableEq, Repr

/-- Python truthiness for the values the engine handles (`if not success`
applies `bool(...)` to a handler's return value). -/
def truthy : Val → Bool
  | .vint n => n != 0
  | .vstr s => s != ""
  | .vbool b => b
  | .vnone => false

/-- Exceptions that the engine's runtime code can raise. -/
inductive PyErr
  | keyError (k : String)
  | valueError (m : String)
  | typeError (m : String)
  | notImplementedError (m : String)
  | undefinedError (m : String)
deriving DecidableEq, Repr

/-- Insert-or-update on an association list, mirroring Python dict
assignment `d[k] = v`: the first binding of `k` is replaced in place,
otherwise the binding is appended at the end. -/
def alSet {α β : Type} [DecidableEq α] : List (α × β) → α → β → List (α × β)
  | [], k, v => [(k, v)]
  | p :: rest, k, v =>
    if p.1 = k then (k, v) :: rest else p :: alSet rest k v

/-- A per-read-pair context: an ordered mapping from keys to values. -/
abbrev Context := List (Val × Val)

/-- The resolved globals table (`self.globals` after `_resolve_globals`). -/
abbrev Globals := List (String × Val)

/-! ## Template expression language

Modelled from the spec: the repository renders `{{ … }}` strings with the
external Jinja2 engine (`StrictUndefined`), which is not part of the
repository's sources.  Spec §4.2 restricts the language to variable
references (context names, and `params.<name>` for the globals namespace),
integer/boolean arithmetic and comparison, string length, and literals;
undefined variables are a strict error.  The constructors below embed that
sub-language; rendering stringifies the result and re-reads it as a
literal (`ast.literal_eval`), which `canonVal` captures. -/

inductive TExpr
  | lit (v : Val)
  | cvar (name : String)
  | gvar (name : String)
  | tadd (a b : TExpr)
  | tsub (a b : TExpr)
  | teq (a b : TExpr)
  | tlt (a b : TExpr)
  | tlen (a : TExpr)
deriving DecidableEq, Repr

/-- Does a template reference any per-read context variable?  This is
`meta.find_undeclared_variables(ast) <= {globals_namespace}` from
`_freeze_constants`: a template whose only undeclared name is the globals
namespace (`params`) uses no context variable. -/
def usesCtx : TExpr → Bool
  | .lit _ => false
  | .cvar _ => true
  | .gvar _ => false
  | .tadd a b => usesCtx a || usesCtx b
  | .tsub a b => usesCtx a || usesCtx b
  | .teq a b => usesCtx a || usesCtx b
  | .tlt a b => usesCtx a || usesCtx b
  | .tlen a => usesCtx a

/-- Evaluate a template against an optional per-read context and the
globals namespace.  `_resolve_globals` and `_freeze_constants` render with
the environment `{params: globals}` only (`octx = none`); `_get_param`
renders with `{**context, params: globals}` (`octx = some ctx`).  A bare
name is looked up in the context; `params.<name>` in the globals; a
missing name is a strict-undefined error, as with Jinja2's
`StrictUndefined`. -/
def evalT (g : Globals) (octx : Option Context) : TExpr → Except PyErr Val
  | .lit v => .ok v
  | .cvar n =>
    match octx with
    | none => .error (.undefinedError n)
    | some ctx =>
      match List.lookup (Val.vstr n) ctx with
      | some v => .ok v
      | none => .error (.undefinedError n)
  | .gvar n =>
    match List.lookup n g with
    | some v => .ok v
    | none => .error (.undefinedError n)
  | .tadd a b => do
    match (← evalT g octx a), (← evalT g octx b) with
    | .vint x, .vint y => .ok (.vint (x + y))
    | .vstr x, .vstr y => .ok (.vstr (x ++ y))
    | _, _ => .error (.typeError "unsupported operand types")
  | .tsub a b => do
    match (← evalT g octx a), (← evalT g octx b) with
    | .vint x, .vint y => .ok (.vint (x - y))
    | _, _ => .error (.typeError "unsupported operand types")
  | .teq a b => do
    let x ← evalT g octx a
    let y ← evalT g octx b
    .ok (.vbool (x == y))
  | .tlt a b => do
    match (← evalT g octx a), (← evalT g octx b) with
    | .vint x, .vint y => .ok (.vbool (decide (x < y)))
    | _, _ => .error (.typeError "unsupported operand types")
  | .tlen a => do
    match (← evalT g octx a) with
    | .vstr s => .ok (.vint (s.length : Int))
    | _ => .error (.typeError "object has no length")

/-- Decimal digits to a number, structurally recursive so that concrete
renderings reduce inside the kernel; `none` on the empty list or any
non-digit. -/
def parseNatDigits (cs : List Char) : Option Nat :=
  if cs.isEmpty then none
  else
    cs.foldl
      (fun acc? c =>
        match acc? with
        | none => none
        | some acc =>
          if c.isDigit then some (acc * 10 + (c.toNat - 48)) else none)
      (some 0)

/-- An integer literal: optional leading minus then decimal digits (the
integer case of Python `int(...)` and `ast.literal_eval`; whitespace,
`+` signs and leading-zero rejection are outside the modelled scope). -/
def strToInt? (s : String) : Option Int :=
  match s.toList with
  | '-' :: rest => (parseNatDigits rest).map (fun n => -(n : Int))
  | cs => (parseNatDigits cs).map (fun n => (n : Int))

/-- Python `str()` of an engine value, as Jinja2 produces when rendering a
template whose expression evaluated to this value. -/
def pyStr : Val → String
  | .vint n => toString n
  | .vstr s => s
  | .vbool b => if b then "True" else "False"
  | .vnone => "None"

/-- `ast.literal_eval` on a rendered string, restricted to the literal
kinds the engine's values can produce (int, bool, `None`); a string that
is not such a literal is kept verbatim (`_render` catches the
`ValueError`/`SyntaxError` and returns the rendered string). -/
def pyLiteralEval (s : String) : Val :=
  if s = "True" then .vbool true
  else if s = "False" then .vbool false
  else if s = "None" then .vnone
  else
    match strToInt? s with
    | some n => .vint n
    | none => .vstr s

/-- Rendering stringifies the evaluated expression and re-reads it as a
literal: the composite of `pyStr` and `pyLiteralEval`. -/
def canonVal (v : Val) : Val := pyLiteralEval (pyStr v)

/-- `_render` on a template string with the per-read environment
`{**context, params: globals}`. -/
def renderT (g : Globals) (ctx : Context) (t : TExpr) : Except PyErr Val :=
  (evalT g (some ctx) t).map canonVal

/-- `_render` on a template string with the compile-time environment
`{params: globals}` only, as used by `_freeze_constants`. -/
def renderTG (g : Globals) (t : TExpr) : Except PyErr Val :=
  (evalT g none t).map canonVal

/-! ## Step fields -/

/-- A value stored in a step's dict: either a plain (non-template) value,
or a template string — `_render` and `_freeze_constants` distinguish the
two by `isinstance(v, str) and "\x7b\x7b" in v`. -/
inductive Field
  | fval (v : Val)
  | ftmpl (t : TExpr)
deriving DecidableEq, Repr

/-- The literal source text of a template expression (the text between the
`\x7b\x7b` and `\x7d\x7d` delimiters). -/
def reprT : TExpr → String
  | .lit v => pyStr v
  | .cvar n => n
  | .gvar n => "params." ++ n
  | .tadd a b => reprT a ++ " + " ++ reprT b
  | .tsub a b => reprT a ++ " - " ++ reprT b
  | .teq a b => reprT a ++ " == " ++ reprT b
  | .tlt a b => reprT a ++ " < " ++ reprT b
  | .tlen a => reprT a ++ " | length"

/-- A raw field access (`step["store_pos_as"]` and friends), which does
not render templates: a template field used raw is its literal source
string, delimiters included. -/
def rawKey : Field → Val
  | .fval v => v
  | .ftmpl t => .vstr ("\x7b\x7b " ++ reprT t ++ " \x7d\x7d")

/-- `_render` on a step-field value: plain values (including plain
strings) are returned as-is, template strings are rendered. -/
def renderField (g : Globals) (ctx : Context) : Field → Except PyErr Val
  | .fval v => .ok v
  | .ftmpl t => renderT g ctx t

/-! ## Parameter retrieval (`_get_param`) -/

/-- The `convert_type` argument of `_get_param`: not requested, `int`, or
`bool`. -/
inductive Conv
  | cnone
  | cint
  | cbool
deriving DecidableEq, Repr

/-- Type conversion after rendering.  `_get_param` skips the conversion
when the rendered value is `None`; Python `int()` accepts ints, bools and
integer-literal strings and raises `ValueError`/`TypeError` otherwise
(wrapped by `_get_param` into a `ValueError`); Python `bool()` is total
truthiness. -/
def applyConv : Conv → Val → Except PyErr Val
  | .cnone, v => .ok v
  | _, .vnone => .ok .vnone
  | .cint, .vint n => .ok (.vint n)
  | .cint, .vbool b => .ok (.vint (if b then 1 else 0))
  | .cint, .vstr s =>
    match strToInt? s with
    | some n => .ok (.vint n)
    | none => .error (.valueError s)
  | .cbool, v => .ok (.vbool (truthy v))

/-- `_get_param(step, param_name, context, default, convert_type)`: raises
`KeyError` when the field is absent and no default was supplied; otherwise
renders the field (or the plain default) against
`{**context, params: globals}` and applies the requested conversion. -/
def getParam (g : Globals) (ctx : Context) (f : Option Field)
    (dflt : Option Val) (conv : Conv) : Except PyErr Val :=
  match f, dflt with
  | none, none => .error (.keyError "required parameter not found in step")
  | none, some d => do applyConv conv (← renderField g ctx (.fval d))
  | some fv, _ => do applyConv conv (← renderField g ctx fv)

/-! ## Steps, compiled parser, parse log -/

/-- One pipeline step: the union of the fields the six operations read.
A Python step is a dict, so every operation-specific field is optional;
the control fields `id`, `op`, `read`, `must_pass`, `whitelist` and
`pattern` are accessed raw by the engine (never rendered) and are embedded
as plain values.  The step's `length` field is named `len_` and its
`default` field `dflt` to avoid clashing with core names. -/
structure Step where
  id : Option String := none
  op : String
  read : Option Int := none
  must_pass : Option Bool := none
  ref : Option Field := none
  max_wobble : Option Field := none
  max_mismatch : Option Field := none
  base_offset : Option Field := none
  hamming_fn : Option Field := none
  store_pos_as : Option Field := none
  start : Option Field := none
  len_ : Option Field := none
  store_seq_as : Option Field := none
  whitelist : Option String := none
  store_match_as : Option Field := none
  store_result_as : Option Field := none
  expression : Option Field := none
  store_as : Option Field := none
  pass_if : Option Field := none
  pattern : Option String := none
  dflt : Option Val := none
deriving DecidableEq, Repr

/-- Modelled from the spec: a compiled regex handle from the external `re`
library is used only through `rx.search(seq)`, which yields the start
position and text of the first match, or `None`. -/
def RegexFn : Type := String → Option (Nat × String)

/-- The compiled `ReadParser`: steps (after freezing), resolved globals,
loaded whitelists, and compiled regex patterns (`None` for patterns whose
compilation failed and was logged). -/
structure ReadParser where
  steps : List Step
  globals : Globals
  whitelist_sets : List (String × List String)
  regex_patterns : List (String × Option RegexFn)

/-- The run-scoped parse log. -/
structure ParseLog where
  total_reads : Nat
  successful_reads : Nat
  failed_reads : Nat
  failures_by_step : List (String × Nat)
deriving DecidableEq, Repr

/-- The `failures_by_step` dict built by `reset_parse_log`: one zeroed
counter per step, keyed `step.get("id", f"step_\x7bi\x7d")`. -/
def mkFailuresByStep (steps : List Step) : List (String × Nat) :=
  steps.enum.foldl
    (fun acc p => alSet acc (p.2.id.getD ("step_" ++ toString p.1)) 0) []

/-- `reset_parse_log`. -/
def reset_parse_log (steps : List Step) : ParseLog :=
  { total_reads := 0, successful_reads := 0, failed_reads := 0,
    failures_by_step := mkFailuresByStep steps }

/-- `self.parse_log['failures_by_step'][step_id] += 1`: Python raises
`KeyError` when the key is absent from the dict. -/
def bumpFailure (d : List (String × Nat)) (k : String) :
    Except PyErr (List (String × Nat)) :=
  match List.lookup k d with
  | some n => .ok (alSet d k (n + 1))
  | none => .error (.keyError k)

/-- The sum of all per-step failure counters. -/
def sumFailures (log : ParseLog) : Nat :=
  (log.failures_by_step.map Prod.snd).sum

/-- The outcome of `parse` on one read pair: the final context (with
`status = "ok"`), or the small failure record naming the failed step (the
human-readable `message` of the record is not modelled). -/
inductive Outcome
  | passed (ctx : Context)
  | failed (read_id : String) (failed_step : String)
deriving DecidableEq, Repr

/-! ## Operation handlers

Each handler returns the (possibly partially) updated context together
with either a raised exception or the handler's Python return value
(`Context × Except PyErr Val`): in Python, context writes performed before
an exception persist, and an optional step's exception is swallowed by the
evaluator while the context keeps those writes. -/

/-- A rendered value used where a `str` is required (the reference
sequence handed to a metric); any other type raises a `TypeError` in the
metric's `zip`/`map`. -/
def valAsStr : Val → Except PyErr String
  | .vstr s => .ok s
  | v => .error (.typeError (pyStr v))

/-- A converted value used where an `int` is required; `None` (a skipped
conversion) or any other type raises a `TypeError` downstream. -/
def valAsInt : Val → Except PyErr Int
  | .vint n => .ok n
  | v => .error (.typeError (pyStr v))

/-- `HAMMING_FUNCS[name]`: a non-string or unknown name raises
`KeyError`. -/
def lookupHammingFn : Val → Except PyErr (String → String → Nat)
  | .vstr n =>
    match hammingFuncs n with
    | some f => .ok f
    | none => .error (.keyError n)
  | v => .error (.keyError (pyStr v))

/-- Resolution of a store-key field.  With `rk = false` this is the
source's raw dict access (`context[step["store_pos_as"]] = …`): templates
are used verbatim as key strings.  With `rk = true` it follows the spec's
refinement reading for C9: a template field whose free variables all lie
in the globals namespace is rendered per read; other fields stay raw. -/
def keyOf (rk : Bool) (g : Globals) (ctx : Context) (f : Field) :
    Except PyErr Val :=
  match f with
  | .fval v => .ok v
  | .ftmpl t =>
    if rk && !usesCtx t then renderT g ctx t else .ok (rawKey f)

/-- `_process_match`. -/
def processMatch (rk : Bool) (P : ReadParser) (s : Step) (seq : String)
    (ctx : Context) : Context × Except PyErr Val :=
  match (do
    let refv ← getParam P.globals ctx s.ref none .cnone
    let refs ← valAsStr refv
    let mwv ← getParam P.globals ctx s.max_wobble none .cint
    let mw ← valAsInt mwv
    let mmv ← getParam P.globals ctx s.max_mismatch none .cint
    let mm ← valAsInt mmv
    let bov ← getParam P.globals ctx s.base_offset (some (.vint 0)) .cint
    let bo ← valAsInt bov
    let hfnv ← getParam P.globals ctx s.hamming_fn none .cnone
    let hfn ← lookupHammingFn hfnv
    let offset := wobble_match seq refs mw mm bo hfn
    if offset = -1 then
      if s.must_pass.getD true then
        pure (ctx, Val.vbool false)
      else
        match s.store_pos_as with
        | none => Except.error (.keyError "store_pos_as")
        | some f => do
          let k ← keyOf rk P.globals ctx f
          pure (alSet ctx k Val.vnone, Val.vbool true)
    else
      match s.store_pos_as with
      | none => Except.error (.keyError "store_pos_as")
      | some f => do
        let k ← keyOf rk P.globals ctx f
        pure (alSet ctx k (Val.vint offset), Val.vbool true) :
      Except PyErr (Context × Val)) with
  | .ok (c, v) => (c, .ok v)
  | .error e => (ctx, .error e)

/-- `_process_extract`.  In the whitelist branch the default store name is
the eagerly evaluated f-string `f"\x7bstep['id']\x7d_ok"`: Python evaluates
`.get`'s default argument unconditionally, so an id-less step raises
`KeyError('id')` there even when `store_match_as` is present (the
extracted fragment write to `store_seq_as` has already happened). -/
def processExtract (rk : Bool) (P : ReadParser) (s : Step) (seq : String)
    (ctx : Context) : Context × Except PyErr Val :=
  match (do
    let sv ← getParam P.globals ctx s.start none .cint
    let st ← valAsInt sv
    let lv ← getParam P.globals ctx s.len_ none .cint
    let ln ← valAsInt lv
    match s.store_seq_as with
    | none => Except.error (.keyError "store_seq_as")
    | some f => do
      let k ← keyOf rk P.globals ctx f
      pure (st, ln, k) : Except PyErr (Int × Int × Val)) with
  | .error e => (ctx, .error e)
  | .ok (st, ln, k) =>
    let frag := pySlice seq st (st + ln)
    let ctx1 := alSet ctx k (Val.vstr frag)
    match s.whitelist with
    | none => (ctx1, .ok (.vbool true))
    | some wname =>
      let wl := (List.lookup wname P.whitelist_sets).getD []
      let is_ok := wl.contains frag
      match s.id with
      | none => (ctx1, .error (.keyError "id"))
      | some sid =>
        match s.store_match_as with
        | some f2 =>
          match keyOf rk P.globals ctx1 f2 with
          | .error e => (ctx1, .error e)
          | .ok k2 => (alSet ctx1 k2 (.vbool is_ok), .ok (.vbool is_ok))
        | none =>
          (alSet ctx1 (.vstr (sid ++ "_ok")) (.vbool is_ok),
            .ok (.vbool is_ok))

/-- `_process_hamming_test`.  Note the source's return value:
`result or not step.get("must_pass", True)`.  The store key is
`step.get("store_result_as", step["id"])`, whose default argument Python
evaluates eagerly: an id-less step raises `KeyError('id')` at the store
even when `store_result_as` is present, leaving the context unchanged. -/
def processHammingTest (rk : Bool) (P : ReadParser) (s : Step)
    (seq : String) (ctx : Context) : Context × Except PyErr Val :=
  match (do
    let refv ← getParam P.globals ctx s.ref none .cnone
    let refs ← valAsStr refv
    let sv ← getParam P.globals ctx s.start none .cint
    let st ← valAsInt sv
    let lv ← getParam P.globals ctx s.len_ none .cint
    let ln ← valAsInt lv
    let mmv ← getParam P.globals ctx s.max_mismatch none .cint
    let mm ← valAsInt mmv
    let hfnv ← getParam P.globals ctx s.hamming_fn none .cnone
    let hfn ← lookupHammingFn hfnv
    let target_seq := pySlice seq st (st + ln)
    let result := decide ((hfn refs target_seq : Int) ≤ mm)
    let k ← (match s.id with
      | none => Except.error (PyErr.keyError "id")
      | some sid =>
        match s.store_result_as with
        | some f => keyOf rk P.globals ctx f
        | none => Except.ok (Val.vstr sid))
    pure (alSet ctx k (Val.vbool result),
      Val.vbool (result || !(s.must_pass.getD true))) :
      Except PyErr (Context × Val)) with
  | .ok (c, v) => (c, .ok v)
  | .error e => (ctx, .error e)

/-- `_process_test`: the rendered expression value is stored and returned
as-is (the evaluator applies truthiness to it).  The store name is
`step.get("store_result_as", step["id"])` with the default evaluated
eagerly, so an id-less step raises `KeyError('id')` even when
`store_result_as` is present. -/
def processTest (rk : Bool) (P : ReadParser) (s : Step) (seq : String)
    (ctx : Context) : Context × Except PyErr Val :=
  match (do
    let result ← getParam P.globals ctx s.expression none .cnone
    let k ← (match s.id with
      | none => Except.error (PyErr.keyError "id")
      | some sid =>
        match s.store_result_as with
        | some f => keyOf rk P.globals ctx f
        | none => Except.ok (Val.vstr sid))
    pure (alSet ctx k result, result) : Except PyErr (Context × Val)) with
  | .ok (c, v) => (c, .ok v)
  | .error e => (ctx, .error e)

/-- `_process_regex_search`. -/
def processRegexSearch (rk : Bool) (P : ReadParser) (s : Step)
    (seq : String) (ctx : Context) : Context × Except PyErr Val :=
  match s.pattern with
  | none => (ctx, .error (.keyError "pattern"))
  | some pname =>
    match List.lookup pname P.regex_patterns with
    | none => (ctx, .error (.keyError pname))
    | some none => (ctx, .error (.keyError pname))
    | some (some rx) =>
      match rx seq with
      | some (pos, text) =>
        (match s.store_pos_as with
         | none => (ctx, .error (.keyError "store_pos_as"))
         | some f =>
           match keyOf rk P.globals ctx f with
           | .error e => (ctx, .error e)
           | .ok k =>
             let ctx1 := alSet ctx k (Val.vint (pos : Int))
             match s.store_match_as with
             | none => (ctx1, .ok (.vbool true))
             | some f2 =>
               match keyOf rk P.globals ctx1 f2 with
               | .error e => (ctx1, .error e)
               | .ok k2 =>
                 (alSet ctx1 k2 (Val.vstr text), .ok (.vbool true)))
      | none =>
        match s.store_pos_as with
        | none => (ctx, .error (.keyError "store_pos_as"))
        | some f =>
          match keyOf rk P.globals ctx f with
          | .error e => (ctx, .error e)
          | .ok k => (alSet ctx k (s.dflt.getD .vnone), .ok (.vbool false))

/-- `_process_compute`. -/
def processCompute (rk : Bool) (P : ReadParser) (s : Step) (seq : String)
    (ctx : Context) : Context × Except PyErr Val :=
  match (do
    let value ← getParam P.globals ctx s.expression none .cnone
    let k ← (match s.store_as with
      | some f => keyOf rk P.globals ctx f
      | none => Except.error (PyErr.keyError "store_as"))
    pure (alSet ctx k value) : Except PyErr Context) with
  | .error e => (ctx, .error e)
  | .ok ctx1 =>
    match s.pass_if with
    | none => (ctx1, .ok (.vbool true))
    | some _ =>
      match getParam P.globals ctx1 s.pass_if none .cbool with
      | .error e => (ctx1, .error e)
      | .ok cond => (ctx1, .ok (.vbool (truthy cond)))

/-- Dispatch on `step["op"]`; an unknown operation raises
`NotImplementedError(f"Unknown operation: \x7bop\x7d")` — inside the
evaluator's `try` block, not at construction. -/
def runStep (rk : Bool) (P : ReadParser) (s : Step) (seq : String)
    (ctx : Context) : Context × Except PyErr Val :=
  if s.op = "match" then processMatch rk P s seq ctx
  else if s.op = "extract" then processExtract rk P s seq ctx
  else if s.op = "hamming_test" then processHammingTest rk P s seq ctx
  else if s.op = "test" then processTest rk P s seq ctx
  else if s.op = "regex_search" then processRegexSearch rk P s seq ctx
  else if s.op = "compute" then processCompute rk P s seq ctx
  else (ctx, .error (.notImplementedError s.op))

/-! ## The evaluator loop (`parse`) -/

/-- Sequence selection, performed before the `try` block:
`reads = {1: seq1, 2: seq2}`; a step without a `read` key uses the empty
string; any other value raises an uncaught `KeyError`. -/
def selectSeq (s : Step) (seq1 seq2 : String) : Except PyErr String :=
  match s.read with
  | none => .ok ""
  | some 1 => .ok seq1
  | some 2 => .ok seq2
  | some r => .error (.keyError (toString r))

/-- The per-step loop of `parse`.  Within the loop, `step_id` is
`step.get("id", "unknown")`; the `failures_by_step` update for a returned
`False` happens inside the `try` block, so its `KeyError` is caught by the
same `except` clause, whose own `failures_by_step` update is not
protected and propagates. -/
def parseSteps (rk : Bool) (P : ReadParser) (name seq1 seq2 : String) :
    List Step → Context → ParseLog → Except PyErr Outcome × ParseLog
  | [], ctx, log =>
    (.ok (.passed (alSet ctx (.vstr "status") (.vstr "ok"))),
      { log with successful_reads := log.successful_reads + 1 })
  | s :: rest, ctx, log =>
    let step_id := s.id.getD "unknown"
    match selectSeq s seq1 seq2 with
    | .error e => (.error e, log)
    | .ok seq =>
      let must_pass := s.must_pass.getD true
      let (ctx1, res) := runStep rk P s seq ctx
      match res with
      | .ok v =>
        if truthy v then parseSteps rk P name seq1 seq2 rest ctx1 log
        else
          match bumpFailure log.failures_by_step step_id with
          | .ok fl =>
            if must_pass then
              (.ok (.failed name step_id),
                { log with failures_by_step := fl,
                           failed_reads := log.failed_reads + 1 })
            else
              parseSteps rk P name seq1 seq2 rest ctx1
                { log with failures_by_step := fl }
          | .error _ =>
            if must_pass then
              let log1 := { log with failed_reads := log.failed_reads + 1 }
              match bumpFailure log1.failures_by_step step_id with
              | .ok fl => (.ok (.failed name step_id),
                  { log1 with failures_by_step := fl })
              | .error e2 => (.error e2, log1)
            else parseSteps rk P name seq1 seq2 rest ctx1 log
      | .error _ =>
        if must_pass then
          let log1 := { log with failed_reads := log.failed_reads + 1 }
          match bumpFailure log1.failures_by_step step_id with
          | .ok fl => (.ok (.failed name step_id),
              { log1 with failures_by_step := fl })
          | .error e2 => (.error e2, log1)
        else parseSteps rk P name seq1 seq2 rest ctx1 log

/-- `ReadParser.parse` with the key-access mode made explicit; the
parse log is threaded as explicit state.  The returned `Except` carries an
exception that escaped `parse`. -/
def parseImpl (rk : Bool) (P : ReadParser) (log : ParseLog)
    (name seq1 qual1 seq2 qual2 : String) :
    Except PyErr Outcome × ParseLog :=
  let ctx0 : Context :=
    [(.vstr "read_id", .vstr name),
     (.vstr "len_seq1", .vint (seq1.length : Int)),
     (.vstr "len_seq2", .vint (seq2.length : Int))]
  parseSteps rk P name seq1 seq2 P.steps ctx0
    { log with total_reads := log.total_reads + 1 }

/-- `ReadParser.parse` as the source implements it (raw store-key
access). -/
def parse (P : ReadParser) (log : ParseLog)
    (name seq1 qual1 seq2 qual2 : String) :
    Except PyErr Outcome × ParseLog :=
  parseImpl false P log name seq1 qual1 seq2 qual2

/-- The spec's per-read-rendered reading of `parse` for the C9 refinement:
identical to `parse` except that a store-key field whose free variables
all lie in the globals namespace is rendered at use time. -/
def parseRenderedKeys (P : ReadParser) (log : ParseLog)
    (name seq1 qual1 seq2 qual2 : String) :
    Except PyErr Outcome × ParseLog :=
  parseImpl true P log name seq1 qual1 seq2 qual2

/-! ## Constant freezing and construction -/

/-- `_freeze_constants` on one optional field: a template whose free
variables all lie in the globals namespace is rendered once now against
`{params: globals}` and replaced by the resulting value; other fields are
left untouched.  A rendering error (strict-undefined global) escapes
`__init__`. -/
def freezeF (g : Globals) : Option Field → Except PyErr (Option Field)
  | none => .ok none
  | some (.fval v) => .ok (some (.fval v))
  | some (.ftmpl t) =>
    if usesCtx t then .ok (some (.ftmpl t))
    else do
      let v ← renderTG g t
      .ok (some (.fval v))

/-- `_freeze_constants` on one step: every template-capable field is
frozen independently (the source iterates over all of the step dict's
items). -/
def freezeStep (g : Globals) (s : Step) : Except PyErr Step := do
  let ref ← freezeF g s.ref
  let max_wobble ← freezeF g s.max_wobble
  let max_mismatch ← freezeF g s.max_mismatch
  let base_offset ← freezeF g s.base_offset
  let hamming_fn ← freezeF g s.hamming_fn
  let store_pos_as ← freezeF g s.store_pos_as
  let start ← freezeF g s.start
  let len_ ← freezeF g s.len_
  let store_seq_as ← freezeF g s.store_seq_as
  let store_match_as ← freezeF g s.store_match_as
  let store_result_as ← freezeF g s.store_result_as
  let expression ← freezeF g s.expression
  let store_as ← freezeF g s.store_as
  let pass_if ← freezeF g s.pass_if
  .ok { s with
    ref := ref, max_wobble := max_wobble, max_mismatch := max_mismatch,
    base_offset := base_offset, hamming_fn := hamming_fn,
    store_pos_as := store_pos_as, start := start, len_ := len_,
    store_seq_as := store_seq_as, store_match_as := store_match_as,
    store_result_as := store_result_as, expression := expression,
    store_as := store_as, pass_if := pass_if }

/-- `_freeze_constants` over the whole pipeline. -/
def freezeConstants (g : Globals) (steps : List Step) :
    Except PyErr (List Step) :=
  steps.mapM (freezeStep g)

/-- `ReadParser.__init__` with the globals already resolved and the
whitelist sets and regex patterns already loaded (file and regex I/O are
external collaborators; `_resolve_globals` is modelled separately below).
The constructor stores the steps, initializes the parse log from them
(`reset_parse_log` runs before freezing, and freezing never changes a
step's `id`), and freezes constant step fields.  No validation of the
steps' `op` fields happens anywhere in construction. -/
def mkReadParser (pipeline : List Step) (g : Globals)
    (wl : List (String × List String))
    (rx : List (String × Option RegexFn)) :
    Except PyErr (ReadParser × ParseLog) := do
  let log := reset_parse_log pipeline
  let fsteps ← freezeConstants g pipeline
  .ok ({ steps := fsteps, globals := g, whitelist_sets := wl,
         regex_patterns := rx }, log)

/-- A whole-run fold of `parse` over a list of read pairs
`(name, seq1, qual1, seq2, qual2)`, accumulating the parse log. -/
def parseMany (P : ReadParser)
    (rps : List (String × String × String × String × String))
    (log : ParseLog) : ParseLog :=
  rps.foldl
    (fun l rp => (parse P l rp.1 rp.2.1 rp.2.2.1 rp.2.2.2.1 rp.2.2.2.2).2)
    log

/-! ## Concrete fixtures used by witnesses and counterexamples -/

/-- An empty compiled parser used by concrete evaluations. -/
def emptyParser : ReadParser :=
  { steps := [], globals := [], whitelist_sets := [], regex_patterns := [] }

/-- The concrete `hamming_test` step used by the C3 counterexample: an
optional (`must_pass: false`) test of `ref = "AA"` against the window
`seq[0:2]` with no mismatches allowed. -/
def htStep : Step :=
  { id := some "h1", op := "hamming_test", read := some 1,
    must_pass := some false,
    ref := some (.fval (.vstr "AA")), start := some (.fval (.vint 0)),
    len_ := some (.fval (.vint 2)),
    max_mismatch := some (.fval (.vint 0)),
    hamming_fn := some (.fval (.vstr "hamming")) }

/-- The concrete must-pass `hamming_test` step used by the C3 witness. -/
def ht2Step : Step :=
  { id := some "h2", op := "hamming_test", read := some 1,
    ref := some (.fval (.vstr "GG")), start := some (.fval (.vint 0)),
    len_ := some (.fval (.vint 2)),
    max_mismatch := some (.fval (.vint 0)),
    hamming_fn := some (.fval (.vstr "hamming")) }

/-- A must-pass `hamming_test` step whose window starts past the end of
the read: used by the C10 witness. -/
def oobStep : Step :=
  { id := some "h3", op := "hamming_test", read := some 1,
    ref := some (.fval (.vstr "AAA")), start := some (.fval (.vint 5)),
    len_ := some (.fval (.vint 3)),
    max_mismatch := some (.fval (.vint 0)),
    hamming_fn := some (.fval (.vstr "hamming")),
    store_result_as := some (.fval (.vstr "res")) }

/-- A step with no `id` key and an operation name outside the dispatch
table: its handler raises `NotImplementedError`, and the failure
bookkeeping then looks up the id default `"unknown"` in a
`failures_by_step` dict keyed `"step_0"`. -/
def noIdStep : Step := { op := "zzz" }

/-- A one-step pipeline around `noIdStep`. -/
def noIdParser : ReadParser :=
  { steps := [noIdStep], globals := [], whitelist_sets := [],
    regex_patterns := [] }

/-- An optional (`must_pass: false`) step whose unknown operation raises
inside the evaluator's `try` block. -/
def optErrStep : Step :=
  { id := some "s0", op := "zzz", must_pass := some false }

/-- A one-step pipeline around `optErrStep`. -/
def optErrParser : ReadParser :=
  { steps := [optErrStep], globals := [], whitelist_sets := [],
    regex_patterns := [] }

/-- A must-pass step with an unknown operation and an explicit id, used to
show that construction accepts unknown operations. -/
def conStep : Step := { id := some "s", op := "frobnicate" }

/-- The parser that `mkReadParser` builds from `[conStep]`. -/
def conParser : ReadParser :=
  { steps := [conStep], globals := [], whitelist_sets := [],
    regex_patterns := [] }

deriving instance DecidableEq for Except

/-! ## Globals resolution (`_resolve_globals`)

`_resolve_globals` re-renders every value of the raw globals dict against
the current dict until one pass makes no change, "without trying to detect
cycles" (its own docstring).  The values here are strings that may contain
`\x7b\x7b params.<key> \x7d\x7d` placeholders; a rendered result is itself re-scanned
for placeholders on the next pass.  Modelled from the spec (rendering is
the external Jinja2 engine): a value is a list of parts — literal text and
placeholders — and rendering splices the referenced keys' current part
lists in place of their placeholders, exactly the string substitution
semantics re-parsed.  The `rendered != val` check compares the printed
strings. -/

/-- One piece of a templated global value. -/
inductive GPart
  | glit (s : String)
  | gref (k : String)
deriving DecidableEq, Repr

/-- A templated global value. -/
abbrev GVal := List GPart

/-- The string a part prints as. -/
def gpartStr : GPart → String
  | .glit s => s
  | .gref k => "\x7b\x7b params." ++ k ++ " \x7d\x7d"

/-- The string a whole value prints as (what Python compares with
`rendered != val`): the concatenation of its parts' strings. -/
def gvalStr : GVal → String
  | [] => ""
  | p :: v => gpartStr p ++ gvalStr v

/-- One `_render` of a global value against the current globals dict:
every placeholder bound in the dict is replaced by that key's current
value.  (An unbound placeholder would raise Jinja2's strict-undefined
error out of `__init__`; it is kept in place here and the termination
theorems below only concern closed tables.) -/
def renderG (g : List (String × GVal)) (v : GVal) : GVal :=
  v.flatMap (fun p =>
    match p with
    | .glit s => [GPart.glit s]
    | .gref k => (List.lookup k g).getD [GPart.gref k])

/-- In-place dict update `self.globals[key] = rendered` of an existing
key. -/
def updG (g : List (String × GVal)) (k : String) (v : GVal) :
    List (String × GVal) :=
  g.map (fun p => if p.1 = k then (k, v) else p)

/-- One iteration of the `for key, val in list(self.globals.items())`
loop body: re-render the key's current value against the current dict and
store it; the `changed` flag records whether the rendering *printed*
differently than the stored value.  (The source assigns only when the
strings differ; assigning an equal string is the identical dict state, so
the state update is performed unconditionally here while the flag keeps
the source's string comparison.) -/
def gstep (acc : List (String × GVal) × Bool) (k : String) :
    List (String × GVal) × Bool :=
  match List.lookup k acc.1 with
  | none => acc
  | some v =>
    let r := renderG acc.1 v
    (updG acc.1 k r, acc.2 || (gvalStr r != gvalStr v))

/-- One full pass of the `while changed` loop over a snapshot of the
keys. -/
def gpass (g : List (String × GVal)) : List (String × GVal) × Bool :=
  (g.map Prod.fst).foldl gstep (g, false)

/-- `n` passes of `_resolve_globals`; the loop exits when a pass reports
`changed = False`, i.e. when `(gpass g).2 = false`. -/
def gpassN : Nat → List (String × GVal) → List (String × GVal)
  | 0, g => g
  | n + 1, g => gpassN n (gpass g).1

/-- The keys a value's placeholders reference. -/
def grefs (v : GVal) : List String :=
  v.filterMap (fun p =>
    match p with
    | .gref k => some k
    | .glit _ => none)

/-- The cyclic globals table `{a: "x\x7b\x7b params.a \x7d\x7d"}`: each pass
doubles the literal prefix, so no pass ever reports `changed = False`. -/
def gCyc : List (String × GVal) :=
  [("a", [.glit "x", .gref "a"])]

/-- A resolved globals table used by the C9 witness. -/
def frzGlobals : Globals := [("TAGSTART", .vint 9), ("TAGLEN", .vint 4)]

/-- An `extract` step whose `start`, `length` and even store key are
templates over globals only — all frozen by `_freeze_constants`. -/
def frzStep : Step :=
  { id := some "e2", op := "extract", read := some 1,
    start := some (.ftmpl (.gvar "TAGSTART")),
    len_ := some (.ftmpl (.gvar "TAGLEN")),
    store_seq_as :=
      some (.ftmpl (.tadd (.gvar "TAGSTART") (.lit (.vint 0)))) }

/-- The un-frozen pipeline around `frzStep`. -/
def frzParser : ReadParser :=
  { steps := [frzStep], globals := frzGlobals, whitelist_sets := [],
    regex_patterns := [] }

/-- What `_freeze_constants` turns `frzStep` into: each globals-only
template is rendered once (the store key renders — and literal-evals — to
the integer `9`). -/
def frzFrozen : List Step :=
  [{ frzStep with
      start := some (.fval (.vint 9)),
      len_ := some (.fval (.vint 4)),
      store_seq_as := some (.fval (.vint 9)) }]

/-! ## Theorems: sequence primitives -/

theorem wobbleOffsets_eq_offsFrom (bo mw : Int) :
    wobbleOffsets bo mw = offsFrom bo (mw + 1).toNat := rfl

theorem offsFrom_append (start : Int) (m : Nat) :
    offsFrom start (m + 1) = offsFrom start m ++ [start + (m : Int)] := by
  unfold offsFrom
  rw [List.range_succ, List.map_append, List.map_singleton]

theorem offsFrom_succ (start : Int) (m : Nat) :
    offsFrom start (m + 1) = start :: offsFrom (start + 1) m := by
  induction m generalizing start with
  | zero =>
    unfold offsFrom
    rw [List.range_zero]
    show (List.range 1).map _ = _
    rw [List.range_succ, List.range_zero]
    simp only [List.nil_append, List.map_singleton, List.map_nil,
      Nat.cast_zero, add_zero]
  | succ n ih =>
    rw [offsFrom_append, ih, offsFrom_append]
    simp only [List.cons_append]
    congr 2
    push_cast
    ring

theorem wobbleGo_spec (test target : String) (h : String → String → Nat)
    (mh bo : Int) :
    ∀ (m : Nat) (start : Int),
      wobbleGo test target h mh bo (offsFrom start m) = -1 ∨
      ∃ k : Nat, k < m ∧
        wobbleGo test target h mh bo (offsFrom start m) =
          start + (k : Int) - bo ∧
        (pySlice test (start + (k : Int))
            (start + (k : Int) + (target.length : Int))).length =
          target.length ∧
        ((h target (pySlice test (start + (k : Int))
            (start + (k : Int) + (target.length : Int))) : Int) ≤ mh) ∧
        ∀ j : Nat, j < k →
          (pySlice test (start + (j : Int))
              (start + (j : Int) + (target.length : Int))).length =
            target.length ∧
          ¬ ((h target (pySlice test (start + (j : Int))
              (start + (j : Int) + (target.length : Int))) : Int) ≤ mh) := by
  intro m
  induction m with
  | zero => intro start; left; rfl
  | succ n ih =>
    intro start
    rw [offsFrom_succ]
    by_cases hshort :
        (pySlice test start (start + (target.length : Int))).length =
          target.length
    · by_cases hpass :
          ((h target (pySlice test start
              (start + (target.length : Int))) : Int) ≤ mh)
      · right
        refine ⟨0, Nat.succ_pos n, ?_, ?_, ?_, ?_⟩
        · simp [wobbleGo, hshort, hpass]
        · simpa using hshort
        · simpa using hpass
        · intro j hj; omega
      · have hrec : wobbleGo test target h mh bo
            (start :: offsFrom (start + 1) n) =
            wobbleGo test target h mh bo (offsFrom (start + 1) n) := by
          simp [wobbleGo, hshort, hpass]
        rcases ih (start + 1) with h1 | ⟨k, hk, hval, hfull, hp, hprev⟩
        · left; rw [hrec, h1]
        · right
          refine ⟨k + 1, by omega, ?_, ?_, ?_, ?_⟩
          · rw [hrec, hval]; push_cast; ring
          · have harg : start + ((k : Nat) + 1 : Nat) =
                (start + 1) + (k : Int) := by push_cast; ring
            rw [harg]; exact hfull
          · have harg : start + ((k : Nat) + 1 : Nat) =
                (start + 1) + (k : Int) := by push_cast; ring
            rw [harg]; exact hp
          · intro j hj
            match j with
            | 0 =>
              simp only [Nat.cast_zero, add_zero]
              exact ⟨hshort, hpass⟩
            | j' + 1 =>
              have harg : start + ((j' : Nat) + 1 : Nat) =
                  (start + 1) + (j' : Int) := by push_cast; ring
              rw [harg]
              exact hprev j' (by omega)
    · left; simp [wobbleGo, hshort]

/-- C2: `wobble_match(test, target, max_wobble, max_hamming, base_offset, h)`
returns either `-1` or a relative offset `r ∈ [0, max_wobble]` whose window
`test[base_offset+r : base_offset+r+|target|]` has full length `|target|`
and satisfies `h(target, window) ≤ max_hamming`; every smaller offset has a
full-length window that exceeds `max_hamming`; and if some offset
`k ∈ [0, max_wobble]` has a short window while all earlier offsets have
full-length failing windows, the search stops there and the result is
`-1`. -/
theorem wobble_match_spec (test target : String) (mw mh bo : Int)
    (h : String → String → Nat)
    (hmw : 0 ≤ mw) (hmh : 0 ≤ mh) (hbo : 0 ≤ bo) :
    (wobble_match test target mw mh bo h = -1 ∨
      (0 ≤ wobble_match test target mw mh bo h ∧
        wobble_match test target mw mh bo h ≤ mw ∧
        (pySlice test (bo + wobble_match test target mw mh bo h)
            (bo + wobble_match test target mw mh bo h +
              (target.length : Int))).length = target.length ∧
        ((h target (pySlice test (bo + wobble_match test target mw mh bo h)
            (bo + wobble_match test target mw mh bo h +
              (target.length : Int))) : Int) ≤ mh) ∧
        ∀ r' : Int, 0 ≤ r' → r' < wobble_match test target mw mh bo h →
          (pySlice test (bo + r')
              (bo + r' + (target.length : Int))).length = target.length ∧
          ¬ ((h target (pySlice test (bo + r')
              (bo + r' + (target.length : Int))) : Int) ≤ mh))) ∧
    (∀ k : Int, 0 ≤ k → k ≤ mw →
      (pySlice test (bo + k)
          (bo + k + (target.length : Int))).length ≠ target.length →
      (∀ j : Int, 0 ≤ j → j < k →
        (pySlice test (bo + j)
            (bo + j + (target.length : Int))).length = target.length ∧
        ¬ ((h target (pySlice test (bo + j)
            (bo + j + (target.length : Int))) : Int) ≤ mh)) →
      wobble_match test target mw mh bo h = -1) := by
  have hcast : (((mw + 1).toNat : Int)) = mw + 1 :=
    Int.toNat_of_nonneg (by omega)
  have hspec := wobbleGo_spec test target h mh bo (mw + 1).toNat bo
  rw [show wobble_match test target mw mh bo h =
      wobbleGo test target h mh bo (offsFrom bo (mw + 1).toNat) from rfl]
  constructor
  · rcases hspec with hneg | ⟨k, hk, hval, hfull, hp, hprev⟩
    · left; exact hneg
    · right
      have hkmw : (k : Int) ≤ mw := by omega
      have hr : wobbleGo test target h mh bo (offsFrom bo (mw + 1).toNat) =
          (k : Int) := by rw [hval]; ring
      rw [hr]
      refine ⟨Int.ofNat_nonneg k, hkmw, hfull, hp, ?_⟩
      intro r' hr0 hrk
      have hj : r'.toNat < k := by omega
      have hjr : ((r'.toNat : Nat) : Int) = r' := Int.toNat_of_nonneg hr0
      have := hprev r'.toNat hj
      rw [hjr] at this
      exact this
  · intro k' hk0 hkmw hshort hbefore
    rcases hspec with hneg | ⟨k, hk, hval, hfull, hp, hprev⟩
    · exact hneg
    · exfalso
      rcases lt_trichotomy (k : Int) k' with hlt | heq | hgt
      · exact (hbefore (k : Int) (Int.ofNat_nonneg k) hlt).2 hp
      · rw [heq] at hfull; exact hshort hfull
      · have hj : k'.toNat < k := by omega
        have hjr : ((k'.toNat : Nat) : Int) = k' := Int.toNat_of_nonneg hk0
        have := (hprev k'.toNat hj).1
        rw [hjr] at this
        exact hshort this

/-- Witness for C2 at a concrete input: matching `GGGTAC` inside
`NNNGGGTACCTAG` with wobble window 5 and no mismatches allowed. -/
theorem wobble_match_spec_witness :
    (0 ≤ (5 : Int) ∧ 0 ≤ (0 : Int) ∧ 0 ≤ (0 : Int)) ∧
    ((wobble_match "NNNGGGTACCTAG" "GGGTAC" 5 0 0 hamming = -1 ∨
      (0 ≤ wobble_match "NNNGGGTACCTAG" "GGGTAC" 5 0 0 hamming ∧
        wobble_match "NNNGGGTACCTAG" "GGGTAC" 5 0 0 hamming ≤ 5 ∧
        (pySlice "NNNGGGTACCTAG"
            (0 + wobble_match "NNNGGGTACCTAG" "GGGTAC" 5 0 0 hamming)
            (0 + wobble_match "NNNGGGTACCTAG" "GGGTAC" 5 0 0 hamming +
              (("GGGTAC" : String).length : Int))).length =
          ("GGGTAC" : String).length ∧
        ((hamming "GGGTAC" (pySlice "NNNGGGTACCTAG"
            (0 + wobble_match "NNNGGGTACCTAG" "GGGTAC" 5 0 0 hamming)
            (0 + wobble_match "NNNGGGTACCTAG" "GGGTAC" 5 0 0 hamming +
              (("GGGTAC" : String).length : Int))) : Int) ≤ 0) ∧
        ∀ r' : Int, 0 ≤ r' →
          r' < wobble_match "NNNGGGTACCTAG" "GGGTAC" 5 0 0 hamming →
          (pySlice "NNNGGGTACCTAG" (0 + r')
              (0 + r' + (("GGGTAC" : String).length : Int))).length =
            ("GGGTAC" : String).length ∧
          ¬ ((hamming "GGGTAC" (pySlice "NNNGGGTACCTAG" (0 + r')
              (0 + r' + (("GGGTAC" : String).length : Int))) : Int) ≤ 0))) ∧
    (∀ k : Int, 0 ≤ k → k ≤ 5 →
      (pySlice "NNNGGGTACCTAG" (0 + k)
          (0 + k + (("GGGTAC" : String).length : Int))).length ≠
        ("GGGTAC" : String).length →
      (∀ j : Int, 0 ≤ j → j < k →
        (pySlice "NNNGGGTACCTAG" (0 + j)
            (0 + j + (("GGGTAC" : String).length : Int))).length =
          ("GGGTAC" : String).length ∧
        ¬ ((hamming "GGGTAC" (pySlice "NNNGGGTACCTAG" (0 + j)
            (0 + j + (("GGGTAC" : String).length : Int))) : Int) ≤ 0)) →
      wobble_match "NNNGGGTACCTAG" "GGGTAC" 5 0 0 hamming = -1)) :=
  ⟨⟨by decide, by decide, by decide⟩,
    wobble_match_spec "NNNGGGTACCTAG" "GGGTAC" 5 0 0 hamming
      (by decide) (by decide) (by decide)⟩

theorem hamming35L_le_hammingL_aux (f t : Char) :
    ∀ l : List (Char × Char),
      l.countP (fun p => p.1 != p.2 && !(p.1 == f && p.2 == t)) ≤
        l.countP (fun p => p.1 != p.2) ∧
      (f ≠ t →
        (l.countP (fun p => p.1 != p.2 && !(p.1 == f && p.2 == t)) =
            l.countP (fun p => p.1 != p.2) ↔
          ∀ p ∈ l, ¬(p.1 = f ∧ p.2 = t)))
  | [] => by simp
  | a :: l => by
    obtain ⟨ih1, ih2⟩ := hamming35L_le_hammingL_aux f t l
    rw [List.countP_cons, List.countP_cons]
    by_cases heq : a.1 = a.2
    · have h1 : (if (a.1 != a.2) = true then 1 else 0) = 0 := by simp [heq]
      have h2 : (if (a.1 != a.2 && !(a.1 == f && a.2 == t)) = true
          then 1 else 0) = 0 := by simp [heq]
      rw [h1, h2, Nat.add_zero, Nat.add_zero]
      refine ⟨ih1, fun hft => ?_⟩
      rw [ih2 hft]
      simp only [List.mem_cons, forall_eq_or_imp]
      have hnot : ¬(a.1 = f ∧ a.2 = t) := by
        rintro ⟨rfl, rfl⟩; exact hft heq
      tauto
    · have h1 : (if (a.1 != a.2) = true then 1 else 0) = 1 := by simp [heq]
      by_cases hconv : a.1 = f ∧ a.2 = t
      · have h2 : (if (a.1 != a.2 && !(a.1 == f && a.2 == t)) = true
            then 1 else 0) = 0 := by simp [hconv.1, hconv.2]
        rw [h1, h2, Nat.add_zero]
        refine ⟨by omega, fun hft => ?_⟩
        simp only [List.mem_cons, forall_eq_or_imp]
        constructor
        · intro habs; exfalso; omega
        · rintro ⟨hna, -⟩; exact absurd hconv hna
      · have h2 : (if (a.1 != a.2 && !(a.1 == f && a.2 == t)) = true
            then 1 else 0) = 1 := by
          rcases not_and_or.mp hconv with hf | ht
          · simp [heq, hf]
          · simp [heq, ht]
        rw [h1, h2]
        refine ⟨by omega, fun hft => ?_⟩
        simp only [List.mem_cons, forall_eq_or_imp]
        have hstep :
            l.countP (fun p => p.1 != p.2 && !(p.1 == f && p.2 == t)) + 1 =
              l.countP (fun p => p.1 != p.2) + 1 ↔
            l.countP (fun p => p.1 != p.2 && !(p.1 == f && p.2 == t)) =
              l.countP (fun p => p.1 != p.2) := by omega
        rw [hstep, ih2 hft]
        tauto

/-- C6 (amended): for equal-length strings, `hamming35(x, y, f, t)` never
exceeds `hamming(x, y)`; and when `f ≠ t` (as for both registered
asymmetric metrics), equality holds iff no position `i` has
`(x[i], y[i]) = (f, t)`.  The extra `f ≠ t` guard is forced by the
counterexample `hamming35_eq_counterexample`: when `f = t`, a matching
position with both characters equal to `f` realizes the pair `(f, t)`
without being counted by either metric. -/
theorem hamming35_le_hamming (x y : String) (f t : Char)
    (hlen : x.length = y.length) :
    hamming35 x y f t ≤ hamming x y ∧
    (f ≠ t →
      (hamming35 x y f t = hamming x y ↔
        ∀ p ∈ x.toList.zip y.toList, ¬(p.1 = f ∧ p.2 = t))) := by
  have := hamming35L_le_hammingL_aux f t (x.toList.zip y.toList)
  exact this

/-- C6 counterexample: with `x = y = "T"` and `f = t = 'T'`, the two
distances are equal even though position 0 carries the pair
`(x[0], y[0]) = (f, t)` — so "equality iff no position has `(f, t)`" fails
as stated for arbitrary characters `f, t`. -/
theorem hamming35_eq_counterexample :
    ("T" : String).length = ("T" : String).length ∧
    hamming35 "T" "T" 'T' 'T' = hamming "T" "T" ∧
    ¬ (∀ p ∈ ("T" : String).toList.zip ("T" : String).toList,
        ¬(p.1 = 'T' ∧ p.2 = 'T')) := by
  refine ⟨rfl, by decide, ?_⟩
  intro habs
  exact habs ('T', 'T') (by decide) ⟨rfl, rfl⟩

/-- Witness for C6 (amended) at a concrete input: `x = "AT"`, `y = "GT"`,
`f = 'A'`, `t = 'G'`. -/
theorem hamming35_le_hamming_witness :
    ("AT" : String).length = ("GT" : String).length ∧
    (hamming35 "AT" "GT" 'A' 'G' ≤ hamming "AT" "GT" ∧
      ('A' ≠ 'G' →
        (hamming35 "AT" "GT" 'A' 'G' = hamming "AT" "GT" ↔
          ∀ p ∈ ("AT" : String).toList.zip ("GT" : String).toList,
            ¬(p.1 = 'A' ∧ p.2 = 'G')))) :=
  ⟨by decide, hamming35_le_hamming "AT" "GT" 'A' 'G' (by decide)⟩

/-! ## Theorems: the `hamming_test` handler (C3, C10) -/

/-- C3 counterexample: on sequence `"TT"` the handler computes
`d = 2 > 0`, stores `False` under the default result key `"h1"`, but
returns `True` because the step is optional — `return result or not
step.get("must_pass", True)` — refuting "returns exactly that boolean,
independently of the step's `must_pass` flag". -/
theorem processHammingTest_counterexample :
    processHammingTest false emptyParser htStep "TT" [] =
      ([(Val.vstr "h1", Val.vbool false)], Except.ok (Val.vbool true)) := by
  rfl

/-- Reduction of the `hamming_test` handler on a step with an explicit id
and plain-literal fields: it stores `result = (d ≤ max_mismatch)` under
the result key and returns `result or not must_pass`. -/
theorem processHammingTest_reduce (rk : Bool) (P : ReadParser) (s : Step)
    (seq : String) (ctx : Context) (R : String) (a L M : Int) (fn : String)
    (h : String → String → Nat) (sid : String) (kv : Val)
    (href : s.ref = some (.fval (.vstr R)))
    (hstart : s.start = some (.fval (.vint a)))
    (hlen : s.len_ = some (.fval (.vint L)))
    (hmm : s.max_mismatch = some (.fval (.vint M)))
    (hfn : s.hamming_fn = some (.fval (.vstr fn)))
    (hreg : hammingFuncs fn = some h)
    (hid : s.id = some sid)
    (hkey : s.store_result_as = some (Field.fval kv) ∨
      (s.store_result_as = none ∧ kv = Val.vstr sid)) :
    processHammingTest rk P s seq ctx =
      (alSet ctx kv
        (Val.vbool (decide ((h R (pySlice seq a (a + L)) : Int) ≤ M))),
       Except.ok (Val.vbool
        (decide ((h R (pySlice seq a (a + L)) : Int) ≤ M) ||
          !(s.must_pass.getD true)))) := by
  unfold processHammingTest
  rw [href, hstart, hlen, hmm, hfn, hid]
  rcases hkey with hkey | ⟨hkey, rfl⟩
  · rw [hkey]
    simp [getParam, renderField, applyConv, valAsStr, valAsInt,
      lookupHammingFn, hreg, keyOf, Except.bind, bind, pure, Except.pure]
  · rw [hkey]
    simp [getParam, renderField, applyConv, valAsStr, valAsInt,
      lookupHammingFn, hreg, keyOf, Except.bind, bind, pure, Except.pure]

/-- C3 (amended): the `hamming_test` handler computes
`d = h(ref, seq[start:start+length])` and writes the boolean
`result = (d ≤ max_mismatch)` to the `store_result_as` key (default: the
step id) — but it returns `result or not must_pass`, weakened for
optional steps (must-pass handling is *not* confined to the evaluator
loop, contrary to the claim as stated); and because `step["id"]` is
evaluated eagerly as the `.get` default, an id-less step raises
`KeyError('id')` at the store instead of storing and returning, even when
`store_result_as` is present. -/
theorem processHammingTest_spec (rk : Bool) (P : ReadParser) (s : Step)
    (seq : String) (ctx : Context) (R : String) (a L M : Int) (fn : String)
    (h : String → String → Nat)
    (href : s.ref = some (.fval (.vstr R)))
    (hstart : s.start = some (.fval (.vint a)))
    (hlen : s.len_ = some (.fval (.vint L)))
    (hmm : s.max_mismatch = some (.fval (.vint M)))
    (hfn : s.hamming_fn = some (.fval (.vstr fn)))
    (hreg : hammingFuncs fn = some h) :
    (∀ (sid : String) (kv : Val),
      s.id = some sid →
      (s.store_result_as = some (Field.fval kv) ∨
        (s.store_result_as = none ∧ kv = Val.vstr sid)) →
      processHammingTest rk P s seq ctx =
        (alSet ctx kv
          (Val.vbool (decide ((h R (pySlice seq a (a + L)) : Int) ≤ M))),
         Except.ok (Val.vbool
          (decide ((h R (pySlice seq a (a + L)) : Int) ≤ M) ||
            !(s.must_pass.getD true))))) ∧
    (s.id = none →
      processHammingTest rk P s seq ctx =
        (ctx, Except.error (PyErr.keyError "id"))) := by
  constructor
  · intro sid kv hid hkey
    exact processHammingTest_reduce rk P s seq ctx R a L M fn h sid kv
      href hstart hlen hmm hfn hreg hid hkey
  · intro hidn
    unfold processHammingTest
    rw [href, hstart, hlen, hmm, hfn, hidn]
    simp [getParam, renderField, applyConv, valAsStr, valAsInt,
      lookupHammingFn, hreg, Except.bind, bind, pure, Except.pure]

/-- Witness for C3 (amended) at a concrete input: a must-pass
`hamming_test` step with id `"h2"` over `ref = "GG"` and `seq = "GG"`. -/
theorem processHammingTest_spec_witness :
    (ht2Step.ref = some (.fval (.vstr "GG")) ∧
      ht2Step.id = some "h2" ∧
      hammingFuncs "hamming" = some hamming) ∧
    processHammingTest false emptyParser ht2Step "GG" [] =
      (alSet [] (Val.vstr "h2")
        (Val.vbool (decide
          ((hamming "GG" (pySlice "GG" 0 (0 + 2)) : Int) ≤ 0))),
       Except.ok (Val.vbool
        (decide ((hamming "GG" (pySlice "GG" 0 (0 + 2)) : Int) ≤ 0) ||
          !(ht2Step.must_pass.getD true)))) :=
  ⟨⟨rfl, rfl, rfl⟩,
    (processHammingTest_spec false emptyParser ht2Step "GG" [] "GG" 0 2 0
      "hamming" hamming rfl rfl rfl rfl rfl rfl).1 "h2" (Val.vstr "h2")
      rfl (Or.inr ⟨rfl, rfl⟩)⟩

theorem zip_take_take :
    ∀ (x y : List Char), (x.take y.length).zip (y.take x.length) = x.zip y
  | [], _ => by simp
  | _ :: _, [] => by simp
  | a :: x, b :: y => by
    simp only [List.length_cons, List.take_succ_cons, List.zip_cons_cons]
    rw [zip_take_take x y]

/-- Python slicing from a start at or past the end of the string (with a
non-negative start) yields the empty string. -/
theorem pySlice_out_of_range (s : String) (i j : Int)
    (h0 : 0 ≤ i) (hge : (s.length : Int) ≤ i) : pySlice s i j = "" := by
  have hlen : s.toList.length = s.length := rfl
  have hni : ¬ i < 0 := by omega
  have hidx : pyIdx s.toList.length i = s.toList.length := by
    unfold pyIdx
    rw [if_neg hni, hlen]
    omega
  show String.mk
      ((s.toList.take (pyIdx s.toList.length j)).drop
        (pyIdx s.toList.length i)) = ""
  rw [hidx, List.drop_eq_nil_of_le (by rw [List.length_take]; omega)]

/-- Every registered metric gives distance `0` against the empty
fragment. -/
theorem registeredMetric_empty (fn : String)
    (h : String → String → Nat) (hreg : hammingFuncs fn = some h)
    (R : String) : h R "" = 0 := by
  unfold hammingFuncs at hreg
  split_ifs at hreg with h1 h2 h3
  · injection hreg with hh
    rw [← hh]
    unfold hamming hammingL
    simp [String.toList]
  · injection hreg with hh
    rw [← hh]
    unfold hamming35 hamming35L
    simp [String.toList]
  · injection hreg with hh
    rw [← hh]
    unfold hamming35 hamming35L
    simp [String.toList]

/-- C10: `hamming` and `hamming35` are total on unequal-length inputs —
each counts mismatches only over the zipped prefix, so truncating each
string to the other's length changes nothing; consequently a
`hamming_test` step whose window `seq[start:start+length]` lies entirely
past the end of the read slices to the empty fragment, raises nothing,
computes distance `0`, and passes for any `max_mismatch ≥ 0` (the step
carries an id, which the handler's store key reads eagerly). -/
theorem hamming_truncation_oob (P : ReadParser) :
    (∀ x y : List Char,
      hammingL x y = hammingL (x.take y.length) (y.take x.length)) ∧
    (∀ (x y : List Char) (f t : Char),
      hamming35L x y f t =
        hamming35L (x.take y.length) (y.take x.length) f t) ∧
    (∀ (rk : Bool) (s : Step) (seq : String) (ctx : Context) (R : String)
        (a L M : Int) (fn : String) (h : String → String → Nat)
        (sid : String) (kv : Val),
      s.ref = some (.fval (.vstr R)) →
      s.start = some (.fval (.vint a)) →
      s.len_ = some (.fval (.vint L)) →
      s.max_mismatch = some (.fval (.vint M)) →
      s.hamming_fn = some (.fval (.vstr fn)) →
      hammingFuncs fn = some h →
      s.id = some sid →
      s.store_result_as = some (Field.fval kv) →
      0 ≤ a → (seq.length : Int) ≤ a → 0 ≤ M →
      processHammingTest rk P s seq ctx =
        (alSet ctx kv (Val.vbool true), Except.ok (Val.vbool true))) := by
  refine ⟨?_, ?_, ?_⟩
  · intro x y
    unfold hammingL
    rw [zip_take_take]
  · intro x y f t
    unfold hamming35L
    rw [zip_take_take]
  · intro rk s seq ctx R a L M fn h sid kv href hstart hlen hmm hfn hreg
      hid hkey ha hseq hM
    have hred := processHammingTest_reduce rk P s seq ctx R a L M fn h
      sid kv href hstart hlen hmm hfn hreg hid (Or.inl hkey)
    rw [hred]
    have hslice : pySlice seq a (a + L) = "" :=
      pySlice_out_of_range seq a (a + L) ha hseq
    rw [hslice, registeredMetric_empty fn h hreg R]
    have hdec : decide (((0 : Nat) : Int) ≤ M) = true := by
      simp; omega
    rw [hdec]
    simp

/-- Witness for C10 at a concrete input: an out-of-range must-pass
`hamming_test` (window start 5 on a read of length 2) succeeds with
distance 0. -/
theorem hamming_truncation_oob_witness :
    (oobStep.start = some (.fval (.vint 5)) ∧ oobStep.id = some "h3" ∧
      0 ≤ (5 : Int) ∧ (("GG" : String).length : Int) ≤ 5 ∧
      0 ≤ (0 : Int)) ∧
    processHammingTest false emptyParser oobStep "GG" [] =
      (alSet [] (Val.vstr "res") (Val.vbool true),
        Except.ok (Val.vbool true)) :=
  ⟨⟨rfl, rfl, by decide, by decide, by decide⟩,
    (hamming_truncation_oob emptyParser).2.2 false oobStep "GG" [] "AAA" 5
      3 0 "hamming" hamming "h3" (Val.vstr "res") rfl rfl rfl rfl rfl rfl
      rfl rfl (by decide) (by decide) (by decide)⟩

/-! ## Theorems: evaluator failure paths (C4, C5, C7) -/

/-- C5: evaluation of the embedded `parse` at the failing input — a
pipeline whose only step lacks an `id` and whose handler raises.  The
evaluator's `except` clause increments `failed_reads` and then executes
`self.parse_log['failures_by_step'][step_id] += 1` with
`step_id = step.get("id", "unknown")`, while `reset_parse_log` keyed the
dict `"step_0"`: the `KeyError("unknown")` propagates out of `parse`,
contradicting the claim that no exception ever escapes. -/
theorem parse_raises_keyError_on_missing_id :
    parse noIdParser (reset_parse_log noIdParser.steps) "r" "A" "!" "A" "!"
      = (Except.error (PyErr.keyError "unknown"),
         { total_reads := 1, successful_reads := 0, failed_reads := 1,
           failures_by_step := [("step_0", 0)] }) := by
  rfl

/-- C4 counterexample: an optional step that raises is swallowed without
touching `failures_by_step` — after the run the counter for `"s0"` is `0`
and the read is counted successful, refuting "an optional step that
raises still increments failures_by_step". -/
theorem optional_error_uncounted_counterexample :
    parse optErrParser (reset_parse_log optErrParser.steps) "r" "A" "!"
        "A" "!" =
      (Except.ok (Outcome.passed
        [(Val.vstr "read_id", Val.vstr "r"),
         (Val.vstr "len_seq1", Val.vint 1),
         (Val.vstr "len_seq2", Val.vint 1),
         (Val.vstr "status", Val.vstr "ok")]),
       { total_reads := 1, successful_reads := 1, failed_reads := 0,
         failures_by_step := [("s0", 0)] }) := by
  rfl

/-- C4 (amended): step failures (a handler returning a falsy value)
increment `failures_by_step` exactly once whether the step is must-pass
or optional; step errors increment it exactly once only when the step is
must-pass — an optional step that raises is swallowed with the parse log
completely unchanged.  In both must-pass cases `failed_reads` is
incremented and `parse` returns the failure outcome immediately; in both
optional cases evaluation continues with the next step. -/
theorem parseSteps_failure_paths (rk : Bool) (P : ReadParser)
    (name seq1 seq2 seq : String) (s : Step) (rest : List Step)
    (ctx : Context) (log : ParseLog) (sid : String) (n : Nat)
    (hid : s.id = some sid)
    (hkey : List.lookup sid log.failures_by_step = some n)
    (hseq : selectSeq s seq1 seq2 = .ok seq) :
    (∀ v ctx1, runStep rk P s seq ctx = (ctx1, .ok v) → truthy v = false →
      parseSteps rk P name seq1 seq2 (s :: rest) ctx log =
        (if s.must_pass.getD true then
          (.ok (.failed name sid),
            { log with
                failures_by_step := alSet log.failures_by_step sid (n + 1),
                failed_reads := log.failed_reads + 1 })
         else
          parseSteps rk P name seq1 seq2 rest ctx1
            { log with
                failures_by_step :=
                  alSet log.failures_by_step sid (n + 1) })) ∧
    (∀ e ctx1, runStep rk P s seq ctx = (ctx1, .error e) →
      parseSteps rk P name seq1 seq2 (s :: rest) ctx log =
        (if s.must_pass.getD true then
          (.ok (.failed name sid),
            { log with
                failures_by_step := alSet log.failures_by_step sid (n + 1),
                failed_reads := log.failed_reads + 1 })
         else
          parseSteps rk P name seq1 seq2 rest ctx1 log)) := by
  constructor
  · intro v ctx1 hrun htr
    simp only [parseSteps, hseq, hrun, htr, hid, Option.getD_some,
      bumpFailure, hkey, Bool.false_eq_true, if_false]
  · intro e ctx1 hrun
    simp only [parseSteps, hseq, hrun, hid, Option.getD_some,
      bumpFailure, hkey]

/-- Witness for C4 (amended): the concrete optional raising step
`optErrStep` on the log that `reset_parse_log` built for it. -/
theorem parseSteps_failure_paths_witness :
    (optErrStep.id = some "s0" ∧
      List.lookup "s0"
        (reset_parse_log optErrParser.steps).failures_by_step = some 0 ∧
      selectSeq optErrStep "A" "A" = .ok "") ∧
    ((∀ v ctx1,
      runStep false optErrParser optErrStep "" [] = (ctx1, .ok v) →
      truthy v = false →
      parseSteps false optErrParser "r" "A" "A" [optErrStep] []
          (reset_parse_log optErrParser.steps) =
        (if optErrStep.must_pass.getD true then
          (.ok (.failed "r" "s0"),
            { reset_parse_log optErrParser.steps with
                failures_by_step :=
                  alSet (reset_parse_log optErrParser.steps).failures_by_step
                    "s0" (0 + 1),
                failed_reads :=
                  (reset_parse_log optErrParser.steps).failed_reads + 1 })
         else
          parseSteps false optErrParser "r" "A" "A" [] ctx1
            { reset_parse_log optErrParser.steps with
                failures_by_step :=
                  alSet (reset_parse_log optErrParser.steps).failures_by_step
                    "s0" (0 + 1) })) ∧
    (∀ e ctx1,
      runStep false optErrParser optErrStep "" [] = (ctx1, .error e) →
      parseSteps false optErrParser "r" "A" "A" [optErrStep] []
          (reset_parse_log optErrParser.steps) =
        (if optErrStep.must_pass.getD true then
          (.ok (.failed "r" "s0"),
            { reset_parse_log optErrParser.steps with
                failures_by_step :=
                  alSet (reset_parse_log optErrParser.steps).failures_by_step
                    "s0" (0 + 1),
                failed_reads :=
                  (reset_parse_log optErrParser.steps).failed_reads + 1 })
         else
          parseSteps false optErrParser "r" "A" "A" [] ctx1
            (reset_parse_log optErrParser.steps)))) :=
  ⟨⟨rfl, rfl, rfl⟩,
    parseSteps_failure_paths false optErrParser "r" "A" "A" "" optErrStep
      [] [] (reset_parse_log optErrParser.steps) "s0" 0 rfl rfl rfl⟩

/-- C7 counterexample: constructing a `ReadParser` over a pipeline whose
only step has the unknown op `"frobnicate"` succeeds — no compile-time
rejection — and the unknown op is first detected during `parse`, where the
`NotImplementedError` is caught and funneled into the step-failure path. -/
theorem unknown_op_accepted_at_construction :
    mkReadParser [conStep] [] [] [] =
      Except.ok (conParser, reset_parse_log [conStep]) ∧
    parse conParser (reset_parse_log [conStep]) "r" "A" "!" "A" "!" =
      (Except.ok (Outcome.failed "r" "s"),
       { total_reads := 1, successful_reads := 0, failed_reads := 1,
         failures_by_step := [("s", 1)] }) := by
  exact ⟨rfl, rfl⟩

/-- C7 (amended): `__init__` performs no validation of step operations —
whenever the pipeline's templated fields freeze cleanly, construction
succeeds, whatever the `op` fields hold; an unknown op is first detected
while parsing a read, where the dispatcher raises `NotImplementedError`
inside the `try` block (so it is handled as a step error, not a
configuration error). -/
theorem unknown_op_detected_at_parse :
    (∀ (pipeline : List Step) (g : Globals)
        (wl : List (String × List String))
        (rx : List (String × Option RegexFn)) (fs : List Step),
      freezeConstants g pipeline = .ok fs →
      mkReadParser pipeline g wl rx =
        .ok ({ steps := fs, globals := g, whitelist_sets := wl,
               regex_patterns := rx }, reset_parse_log pipeline)) ∧
    (∀ (rk : Bool) (P : ReadParser) (s : Step) (seq : String)
        (ctx : Context),
      s.op ≠ "match" → s.op ≠ "extract" → s.op ≠ "hamming_test" →
      s.op ≠ "test" → s.op ≠ "regex_search" → s.op ≠ "compute" →
      runStep rk P s seq ctx =
        (ctx, .error (.notImplementedError s.op))) := by
  constructor
  · intro pipeline g wl rx fs hfr
    unfold mkReadParser
    rw [hfr]
    rfl
  · intro rk P s seq ctx h1 h2 h3 h4 h5 h6
    unfold runStep
    rw [if_neg h1, if_neg h2, if_neg h3, if_neg h4, if_neg h5, if_neg h6]

/-- Witness for C7 (amended) at a concrete input: the unknown-op pipeline
`[conStep]` freezes cleanly, constructs, and its step dispatches to
`NotImplementedError`. -/
theorem unknown_op_detected_at_parse_witness :
    (freezeConstants [] [conStep] = .ok [conStep] ∧
      conStep.op ≠ "match" ∧ conStep.op ≠ "extract" ∧
      conStep.op ≠ "hamming_test" ∧ conStep.op ≠ "test" ∧
      conStep.op ≠ "regex_search" ∧ conStep.op ≠ "compute") ∧
    mkReadParser [conStep] [] [] [] =
      .ok ({ steps := [conStep], globals := [], whitelist_sets := [],
             regex_patterns := [] }, reset_parse_log [conStep]) ∧
    runStep false conParser conStep "A" [] =
      ([], .error (.notImplementedError conStep.op)) :=
  ⟨⟨rfl, by decide, by decide, by decide, by decide, by decide, by decide⟩,
    (unknown_op_detected_at_parse).1 [conStep] [] [] [] [conStep] rfl,
    (unknown_op_detected_at_parse).2 false conParser conStep "A" []
      (by decide) (by decide) (by decide) (by decide) (by decide)
      (by decide)⟩

/-- C1 counterexample: after one `parse` call on a pipeline whose only
step lacks an `id` (and fails), the failure-counter sum is `0` while
`failed_reads` is `1` — `sum(failures_by_step) ≥ failed_reads` fails. -/
theorem sum_failures_lt_failed_counterexample :
    sumFailures (parseMany noIdParser [("r", "A", "!", "A", "!")]
        (reset_parse_log noIdParser.steps)) = 0 ∧
    (parseMany noIdParser [("r", "A", "!", "A", "!")]
        (reset_parse_log noIdParser.steps)).failed_reads = 1 := by
  exact ⟨rfl, rfl⟩

/-! ## Theorems: the parse-log invariant (C1) -/

theorem lookup_alSet_self {β : Type} (l : List (String × β)) (k : String)
    (v : β) : List.lookup k (alSet l k v) = some v := by
  induction l with
  | nil => simp [alSet, List.lookup]
  | cons p rest ih =>
    unfold alSet
    by_cases hp : p.1 = k
    · rw [if_pos hp]
      simp [List.lookup]
    · rw [if_neg hp]
      rw [List.lookup_cons]
      have : (k == p.1) = false := by
        simp only [beq_eq_false_iff_ne, ne_eq]
        exact fun h => hp h.symm
      simp only [this]
      exact ih

theorem lookup_alSet_ne {β : Type} (l : List (String × β)) (k k' : String)
    (v : β) (hne : k' ≠ k) :
    List.lookup k' (alSet l k v) = List.lookup k' l := by
  induction l with
  | nil =>
    simp only [alSet, List.lookup_cons, List.lookup_nil]
    have : (k' == k) = false := by simpa using hne
    simp [this]
  | cons p rest ih =>
    unfold alSet
    by_cases hp : p.1 = k
    · rw [if_pos hp]
      rw [List.lookup_cons, List.lookup_cons]
      have h1 : (k' == k) = false := by simpa using hne
      have h2 : (k' == p.1) = false := by
        simp only [beq_eq_false_iff_ne, ne_eq]
        rw [hp]; exact hne
      simp [h1, h2]
    · rw [if_neg hp]
      rw [List.lookup_cons, List.lookup_cons]
      by_cases hk : k' = p.1
      · simp [hk]
      · have h2 : (k' == p.1) = false := by simpa using hk
        simp only [h2]
        exact ih

theorem lookup_isSome_alSet {β : Type} (l : List (String × β))
    (k k' : String) (v : β) (h : (List.lookup k' l).isSome = true) :
    (List.lookup k' (alSet l k v)).isSome = true := by
  by_cases hk : k' = k
  · rw [hk, lookup_alSet_self]; rfl
  · rw [lookup_alSet_ne l k k' v hk]; exact h

theorem sum_alSet_bump (d : List (String × Nat)) (k : String) (n : Nat)
    (h : List.lookup k d = some n) :
    ((alSet d k (n + 1)).map Prod.snd).sum =
      (d.map Prod.snd).sum + 1 := by
  induction d with
  | nil => simp [List.lookup] at h
  | cons p rest ih =>
    unfold alSet
    by_cases hp : p.1 = k
    · rw [if_pos hp]
      rw [List.lookup_cons] at h
      have hb : (k == p.1) = true := by simp [hp]
      simp only [hb] at h
      simp only [List.map_cons, List.sum_cons]
      injection h with h
      omega
    · rw [if_neg hp]
      rw [List.lookup_cons] at h
      have hb : (k == p.1) = false := by
        simp only [beq_eq_false_iff_ne, ne_eq]
        exact fun he => hp he.symm
      simp only [hb] at h
      simp only [List.map_cons, List.sum_cons, ih h]
      omega

theorem lookup_foldl_alSet_isSome (l : List (Nat × Step))
    (init : List (String × Nat)) (k : String)
    (h : (∃ p ∈ l, p.2.id.getD ("step_" ++ toString p.1) = k) ∨
      (List.lookup k init).isSome = true) :
    (List.lookup k
      (l.foldl
        (fun acc p => alSet acc (p.2.id.getD ("step_" ++ toString p.1)) 0)
        init)).isSome = true := by
  induction l generalizing init with
  | nil =>
    rcases h with ⟨p, hp, _⟩ | h
    · exact absurd hp (List.not_mem_nil p)
    · simpa using h
  | cons p rest ih =>
    simp only [List.foldl_cons]
    apply ih
    rcases h with ⟨q, hq, hk⟩ | h
    · rcases List.mem_cons.mp hq with rfl | hq'
      · right
        rw [← hk, lookup_alSet_self]
        rfl
      · left; exact ⟨q, hq', hk⟩
    · right
      exact lookup_isSome_alSet init _ k 0 h

theorem mkFailuresByStep_covers (steps : List Step) (s : Step)
    (sid : String) (hs : s ∈ steps) (hid : s.id = some sid) :
    (List.lookup sid (mkFailuresByStep steps)).isSome = true := by
  have hs' : s ∈ (steps.enum.map Prod.snd) := by
    rw [List.enum_map_snd]; exact hs
  obtain ⟨p, hp, hps⟩ := List.mem_map.mp hs'
  apply lookup_foldl_alSet_isSome
  left
  exact ⟨p, hp, by rw [hps, hid]; rfl⟩

theorem parseSteps_log_spec (rk : Bool) (P : ReadParser)
    (name seq1 seq2 : String) :
    ∀ (steps : List Step) (ctx : Context) (log : ParseLog)
      (res : Except PyErr Outcome) (log' : ParseLog),
      (∀ s ∈ steps,
        (∃ sid, s.id = some sid ∧
          (List.lookup sid log.failures_by_step).isSome = true) ∧
        (s.read = none ∨ s.read = some 1 ∨ s.read = some 2)) →
      parseSteps rk P name seq1 seq2 steps ctx log = (res, log') →
      (∃ o, res = Except.ok o) ∧
      log'.total_reads = log.total_reads ∧
      ((log'.successful_reads = log.successful_reads + 1 ∧
          log'.failed_reads = log.failed_reads) ∨
        (log'.failed_reads = log.failed_reads + 1 ∧
          log'.successful_reads = log.successful_reads)) ∧
      sumFailures log' + log.failed_reads ≥
        sumFailures log + log'.failed_reads ∧
      (∀ k, (List.lookup k log.failures_by_step).isSome = true →
        (List.lookup k log'.failures_by_step).isSome = true) := by
  intro steps
  induction steps with
  | nil =>
    intro ctx log res log' hwf heq
    simp only [parseSteps, Prod.mk.injEq] at heq
    obtain ⟨hres, hlog⟩ := heq
    rw [← hlog, ← hres]
    refine ⟨⟨_, rfl⟩, rfl, Or.inl ⟨rfl, rfl⟩, le_refl _, fun k h => h⟩
  | cons s rest ih =>
    intro ctx log res log' hwf heq
    obtain ⟨⟨sid, hid, hkeyS⟩, hread⟩ := hwf s (List.mem_cons_self s rest)
    obtain ⟨n, hkn⟩ := Option.isSome_iff_exists.mp hkeyS
    have hwfrest := fun s' hs' => hwf s' (List.mem_cons_of_mem s hs')
    have hseq : ∃ seqv, selectSeq s seq1 seq2 = .ok seqv := by
      rcases hread with h | h | h
      · exact ⟨"", by simp [selectSeq, h]⟩
      · exact ⟨seq1, by simp [selectSeq, h]⟩
      · exact ⟨seq2, by simp [selectSeq, h]⟩
    obtain ⟨seqv, hseq⟩ := hseq
    rcases hrun : runStep rk P s seqv ctx with ⟨ctx1, rres⟩
    rcases rres with e | v
    · simp only [parseSteps, hseq, hrun, hid, Option.getD_some] at heq
      by_cases hmp : s.must_pass.getD true = true
      · rw [if_pos hmp] at heq
        simp only [bumpFailure, hkn, Prod.mk.injEq] at heq
        obtain ⟨hres, hlog⟩ := heq
        rw [← hlog, ← hres]
        refine ⟨⟨_, rfl⟩, rfl, Or.inr ⟨rfl, rfl⟩, ?_, ?_⟩
        · unfold sumFailures
          simp only
          rw [sum_alSet_bump log.failures_by_step sid n hkn]
          omega
        · intro k hk
          exact lookup_isSome_alSet _ _ _ _ hk
      · rw [if_neg hmp] at heq
        exact ih ctx1 log res log' hwfrest heq
    · simp only [parseSteps, hseq, hrun, hid, Option.getD_some] at heq
      by_cases htr : truthy v = true
      · rw [if_pos htr] at heq
        exact ih ctx1 log res log' hwfrest heq
      · rw [if_neg htr] at heq
        simp only [bumpFailure, hkn] at heq
        by_cases hmp : s.must_pass.getD true = true
        · rw [if_pos hmp] at heq
          rw [Prod.mk.injEq] at heq
          obtain ⟨hres, hlog⟩ := heq
          rw [← hlog, ← hres]
          refine ⟨⟨_, rfl⟩, rfl, Or.inr ⟨rfl, rfl⟩, ?_, ?_⟩
          · unfold sumFailures
            simp only
            rw [sum_alSet_bump log.failures_by_step sid n hkn]
            omega
          · intro k hk
            exact lookup_isSome_alSet _ _ _ _ hk
        · rw [if_neg hmp] at heq
          have hwfrest' : ∀ s' ∈ rest,
              (∃ sid', s'.id = some sid' ∧
                (List.lookup sid'
                  (ParseLog.mk log.total_reads log.successful_reads
                    log.failed_reads
                    (alSet log.failures_by_step sid
                      (n + 1))).failures_by_step).isSome = true) ∧
              (s'.read = none ∨ s'.read = some 1 ∨ s'.read = some 2) := by
            intro s' hs'
            obtain ⟨⟨sid', hid', hkey'⟩, hr'⟩ := hwfrest s' hs'
            exact ⟨⟨sid', hid', lookup_isSome_alSet _ _ _ _ hkey'⟩, hr'⟩
          have hres2 := ih ctx1
            (ParseLog.mk log.total_reads log.successful_reads
              log.failed_reads (alSet log.failures_by_step sid (n + 1)))
            res log' hwfrest' heq
          obtain ⟨h1, h2, h3, h4, h5⟩ := hres2
          refine ⟨h1, h2, h3, ?_, ?_⟩
          · unfold sumFailures at h4 ⊢
            simp only at h4 ⊢
            rw [sum_alSet_bump log.failures_by_step sid n hkn] at h4
            omega
          · intro k hk
            exact h5 k (lookup_isSome_alSet _ _ _ _ hk)

theorem parse_call_spec (P : ReadParser) (log : ParseLog)
    (hwf : ∀ s ∈ P.steps,
      (∃ sid, s.id = some sid ∧
        (List.lookup sid log.failures_by_step).isSome = true) ∧
      (s.read = none ∨ s.read = some 1 ∨ s.read = some 2))
    (nm s1 q1 s2 q2 : String) :
    (∃ o, (parse P log nm s1 q1 s2 q2).1 = Except.ok o) ∧
    (parse P log nm s1 q1 s2 q2).2.total_reads = log.total_reads + 1 ∧
    (((parse P log nm s1 q1 s2 q2).2.successful_reads =
          log.successful_reads + 1 ∧
        (parse P log nm s1 q1 s2 q2).2.failed_reads = log.failed_reads) ∨
      ((parse P log nm s1 q1 s2 q2).2.failed_reads =
          log.failed_reads + 1 ∧
        (parse P log nm s1 q1 s2 q2).2.successful_reads =
          log.successful_reads)) ∧
    sumFailures (parse P log nm s1 q1 s2 q2).2 + log.failed_reads ≥
      sumFailures log + (parse P log nm s1 q1 s2 q2).2.failed_reads ∧
    (∀ k, (List.lookup k log.failures_by_step).isSome = true →
      (List.lookup k
        (parse P log nm s1 q1 s2 q2).2.failures_by_step).isSome = true) := by
  rcases hpr : parse P log nm s1 q1 s2 q2 with ⟨res, log'⟩
  have hspec := parseSteps_log_spec false P nm s1 s2 P.steps
    [(.vstr "read_id", .vstr nm),
     (.vstr "len_seq1", .vint (s1.length : Int)),
     (.vstr "len_seq2", .vint (s2.length : Int))]
    (ParseLog.mk (log.total_reads + 1) log.successful_reads
      log.failed_reads log.failures_by_step)
    res log' hwf hpr
  obtain ⟨h1, h2, h3, h4, h5⟩ := hspec
  simp only at h2 h3 h4 h5
  exact ⟨h1, h2, h3, h4, h5⟩

theorem parseMany_invariant (P : ReadParser)
    (hwf : ∀ s ∈ P.steps, (∃ sid, s.id = some sid) ∧
      (s.read = none ∨ s.read = some 1 ∨ s.read = some 2)) :
    ∀ (rps : List (String × String × String × String × String))
      (log : ParseLog),
      log.total_reads = log.successful_reads + log.failed_reads →
      sumFailures log ≥ log.failed_reads →
      (∀ s ∈ P.steps, ∀ sid, s.id = some sid →
        (List.lookup sid log.failures_by_step).isSome = true) →
      (parseMany P rps log).total_reads =
        (parseMany P rps log).successful_reads +
          (parseMany P rps log).failed_reads ∧
      sumFailures (parseMany P rps log) ≥
        (parseMany P rps log).failed_reads ∧
      (∀ s ∈ P.steps, ∀ sid, s.id = some sid →
        (List.lookup sid
          (parseMany P rps log).failures_by_step).isSome = true) := by
  intro rps
  induction rps with
  | nil => intro log h1 h2 h3; exact ⟨h1, h2, h3⟩
  | cons rp rps ih =>
    intro log h1 h2 h3
    have hwf' : ∀ s ∈ P.steps,
        (∃ sid, s.id = some sid ∧
          (List.lookup sid log.failures_by_step).isSome = true) ∧
        (s.read = none ∨ s.read = some 1 ∨ s.read = some 2) := by
      intro s hs
      obtain ⟨⟨sid, hid⟩, hr⟩ := hwf s hs
      exact ⟨⟨sid, hid, h3 s hs sid hid⟩, hr⟩
    have hcall := parse_call_spec P log hwf' rp.1 rp.2.1 rp.2.2.1
      rp.2.2.2.1 rp.2.2.2.2
    obtain ⟨-, hc2, hc3, hc4, hc5⟩ := hcall
    have hstep : parseMany P (rp :: rps) log =
        parseMany P rps
          (parse P log rp.1 rp.2.1 rp.2.2.1 rp.2.2.2.1 rp.2.2.2.2).2 := rfl
    rw [hstep]
    apply ih
    · rcases hc3 with ⟨ha, hb⟩ | ⟨ha, hb⟩ <;> omega
    · rcases hc3 with ⟨ha, hb⟩ | ⟨ha, hb⟩ <;> omega
    · intro s hs sid hid
      exact hc5 sid (h3 s hs sid hid)

/-- C1 (amended): for pipelines in which every step has an explicit `id`
and every `read` selector, when present, is `1` or `2`, the parse log
satisfies — after every sequence of `parse` calls from `reset_parse_log` —
`total_reads = successful_reads + failed_reads` and
`sum(failures_by_step) ≥ failed_reads`; and each further `parse` call
increments `total_reads` exactly once and exactly one of
`successful_reads` or `failed_reads` exactly once.  (Without the id
restriction the `"unknown"`-vs-`"step_<i>"` key mismatch lets a call
increment `failed_reads` while no failure counter exists, breaking the
sum bound, as `sum_failures_lt_failed_counterexample` shows.) -/
theorem parse_log_invariant (P : ReadParser)
    (hwf : ∀ s ∈ P.steps, (∃ sid, s.id = some sid) ∧
      (s.read = none ∨ s.read = some 1 ∨ s.read = some 2)) :
    (∀ rps : List (String × String × String × String × String),
      (parseMany P rps (reset_parse_log P.steps)).total_reads =
        (parseMany P rps (reset_parse_log P.steps)).successful_reads +
          (parseMany P rps (reset_parse_log P.steps)).failed_reads ∧
      sumFailures (parseMany P rps (reset_parse_log P.steps)) ≥
        (parseMany P rps (reset_parse_log P.steps)).failed_reads) ∧
    (∀ (rps : List (String × String × String × String × String))
        (nm s1 q1 s2 q2 : String),
      (parse P (parseMany P rps (reset_parse_log P.steps))
          nm s1 q1 s2 q2).2.total_reads =
        (parseMany P rps (reset_parse_log P.steps)).total_reads + 1 ∧
      (((parse P (parseMany P rps (reset_parse_log P.steps))
            nm s1 q1 s2 q2).2.successful_reads =
          (parseMany P rps (reset_parse_log P.steps)).successful_reads +
            1 ∧
        (parse P (parseMany P rps (reset_parse_log P.steps))
            nm s1 q1 s2 q2).2.failed_reads =
          (parseMany P rps (reset_parse_log P.steps)).failed_reads) ∨
       ((parse P (parseMany P rps (reset_parse_log P.steps))
            nm s1 q1 s2 q2).2.failed_reads =
          (parseMany P rps (reset_parse_log P.steps)).failed_reads + 1 ∧
        (parse P (parseMany P rps (reset_parse_log P.steps))
            nm s1 q1 s2 q2).2.successful_reads =
          (parseMany P rps (reset_parse_log P.steps)).successful_reads))) := by
  have hreset0 : (reset_parse_log P.steps).total_reads =
      (reset_parse_log P.steps).successful_reads +
        (reset_parse_log P.steps).failed_reads := rfl
  have hreset1 : sumFailures (reset_parse_log P.steps) ≥
      (reset_parse_log P.steps).failed_reads := Nat.zero_le _
  have hreset2 : ∀ s ∈ P.steps, ∀ sid, s.id = some sid →
      (List.lookup sid
        (reset_parse_log P.steps).failures_by_step).isSome = true := by
    intro s hs sid hid
    exact mkFailuresByStep_covers P.steps s sid hs hid
  constructor
  · intro rps
    have := parseMany_invariant P hwf rps (reset_parse_log P.steps)
      hreset0 hreset1 hreset2
    exact ⟨this.1, this.2.1⟩
  · intro rps nm s1 q1 s2 q2
    have hmany := parseMany_invariant P hwf rps (reset_parse_log P.steps)
      hreset0 hreset1 hreset2
    have hwf' : ∀ s ∈ P.steps,
        (∃ sid, s.id = some sid ∧
          (List.lookup sid
            (parseMany P rps
              (reset_parse_log P.steps)).failures_by_step).isSome =
            true) ∧
        (s.read = none ∨ s.read = some 1 ∨ s.read = some 2) := by
      intro s hs
      obtain ⟨⟨sid, hid⟩, hr⟩ := hwf s hs
      exact ⟨⟨sid, hid, hmany.2.2 s hs sid hid⟩, hr⟩
    have hcall := parse_call_spec P
      (parseMany P rps (reset_parse_log P.steps)) hwf' nm s1 q1 s2 q2
    exact ⟨hcall.2.1, hcall.2.2.1⟩

/-- Witness for C1 (amended) at a concrete input: the one-step pipeline of
`conParser` (explicit id, no read selector), run on one read pair. -/
theorem parse_log_invariant_witness :
    (∀ s ∈ conParser.steps, (∃ sid, s.id = some sid) ∧
      (s.read = none ∨ s.read = some 1 ∨ s.read = some 2)) ∧
    ((parseMany conParser [("r", "A", "!", "A", "!")]
        (reset_parse_log conParser.steps)).total_reads =
      (parseMany conParser [("r", "A", "!", "A", "!")]
        (reset_parse_log conParser.steps)).successful_reads +
        (parseMany conParser [("r", "A", "!", "A", "!")]
          (reset_parse_log conParser.steps)).failed_reads ∧
     sumFailures (parseMany conParser [("r", "A", "!", "A", "!")]
        (reset_parse_log conParser.steps)) ≥
      (parseMany conParser [("r", "A", "!", "A", "!")]
        (reset_parse_log conParser.steps)).failed_reads) :=
  ⟨by
    intro s hs
    have hs' : s = conStep := List.mem_singleton.mp hs
    subst hs'
    exact ⟨⟨"s", rfl⟩, Or.inl rfl⟩,
   (parse_log_invariant conParser (by
      intro s hs
      have hs' : s = conStep := List.mem_singleton.mp hs
      subst hs'
      exact ⟨⟨"s", rfl⟩, Or.inl rfl⟩)).1
     [("r", "A", "!", "A", "!")]⟩

/-! ## Theorems: freezing is semantics-preserving (C9) -/

theorem evalT_ctx_irrelevant (g : Globals) (ctx : Context) :
    ∀ t : TExpr, usesCtx t = false →
      evalT g (some ctx) t = evalT g none t := by
  intro t
  induction t with
  | lit v => intro _; rfl
  | cvar n => intro h; simp [usesCtx] at h
  | gvar n => intro _; rfl
  | tadd a b iha ihb =>
    intro h
    simp only [usesCtx, Bool.or_eq_false_iff] at h
    simp only [evalT, iha h.1, ihb h.2]
  | tsub a b iha ihb =>
    intro h
    simp only [usesCtx, Bool.or_eq_false_iff] at h
    simp only [evalT, iha h.1, ihb h.2]
  | teq a b iha ihb =>
    intro h
    simp only [usesCtx, Bool.or_eq_false_iff] at h
    simp only [evalT, iha h.1, ihb h.2]
  | tlt a b iha ihb =>
    intro h
    simp only [usesCtx, Bool.or_eq_false_iff] at h
    simp only [evalT, iha h.1, ihb h.2]
  | tlen a iha =>
    intro h
    simp only [usesCtx] at h
    simp only [evalT, iha h]

theorem renderT_ctx_irrelevant (g : Globals) (ctx : Context) (t : TExpr)
    (h : usesCtx t = false) : renderT g ctx t = renderTG g t := by
  unfold renderT renderTG
  rw [evalT_ctx_irrelevant g ctx t h]

/-- Inversion of `freezeF` on a present field. -/
theorem freezeF_inv (g : Globals) (ff : Field) (fo' : Option Field)
    (h : freezeF g (some ff) = .ok fo') :
    (∃ v, ff = .fval v ∧ fo' = some (.fval v)) ∨
    (∃ t, ff = .ftmpl t ∧ usesCtx t = true ∧ fo' = some (.ftmpl t)) ∨
    (∃ t v, ff = .ftmpl t ∧ usesCtx t = false ∧ renderTG g t = .ok v ∧
      fo' = some (.fval v)) := by
  rcases ff with v | t
  · left
    refine ⟨v, rfl, ?_⟩
    simp only [freezeF] at h
    exact (Except.ok.inj h).symm ▸ rfl
  · by_cases hu : usesCtx t = true
    · right; left
      refine ⟨t, rfl, hu, ?_⟩
      simp only [freezeF, hu, if_true] at h
      exact (Except.ok.inj h).symm ▸ rfl
    · right; right
      have hu' : usesCtx t = false := by simpa using hu
      simp only [freezeF, hu', Bool.false_eq_true, if_false] at h
      rcases hr : renderTG g t with e | v
      · rw [hr] at h; simp [Except.bind, bind] at h
      · rw [hr] at h
        simp only [bind, Except.bind, Except.ok.injEq] at h
        exact ⟨t, v, rfl, hu', hr, h.symm ▸ rfl⟩

theorem freezeF_none (g : Globals) (fo' : Option Field)
    (h : freezeF g none = .ok fo') : fo' = none := by
  simp only [freezeF] at h
  exact (Except.ok.inj h).symm

/-- A frozen field renders per read to the same value as the original. -/
theorem getParam_freeze (g : Globals) (ctx : Context)
    (fo fo' : Option Field) (dflt : Option Val) (conv : Conv)
    (h : freezeF g fo = .ok fo') :
    getParam g ctx fo' dflt conv = getParam g ctx fo dflt conv := by
  rcases fo with _ | ff
  · rw [freezeF_none g fo' h]
  · rcases freezeF_inv g ff fo' h with
      ⟨v, rfl, rfl⟩ | ⟨t, rfl, hu, rfl⟩ | ⟨t, v, rfl, hu, hr, rfl⟩
    · rfl
    · rfl
    · rcases dflt with _ | d
      · simp only [getParam, renderField]
        rw [renderT_ctx_irrelevant g ctx t hu, hr]
      · simp only [getParam, renderField]
        rw [renderT_ctx_irrelevant g ctx t hu, hr]

/-- A frozen store-key field accessed raw resolves to the same key as the
original field rendered per read (for templates with no context
variables), and raw in the remaining cases. -/
theorem keyOf_freeze (g : Globals) (ctx : Context) (ff ff' : Field)
    (h : freezeF g (some ff) = .ok (some ff')) :
    keyOf false g ctx ff' = keyOf true g ctx ff := by
  rcases freezeF_inv g ff (some ff') h with
    ⟨v, rfl, he⟩ | ⟨t, rfl, hu, he⟩ | ⟨t, v, rfl, hu, hr, he⟩
  · rw [Option.some.inj he]; rfl
  · rw [Option.some.inj he]
    simp [keyOf, hu]
  · rw [Option.some.inj he]
    simp only [keyOf, hu, Bool.not_false, Bool.and_true, if_true,
      rawKey]
    rw [renderT_ctx_irrelevant g ctx t hu, hr]

/-- Option-level pairing of a field and its frozen form for store-key
accesses. -/
theorem keyOfOpt_freeze (g : Globals)
    (fo fo' : Option Field) (h : freezeF g fo = .ok fo') :
    (fo = none ∧ fo' = none) ∨
    (∃ ff ff', fo = some ff ∧ fo' = some ff' ∧
      ∀ cx : Context, keyOf false g cx ff' = keyOf true g cx ff) := by
  rcases fo with _ | ff
  · exact Or.inl ⟨rfl, freezeF_none g fo' h⟩
  · right
    rcases freezeF_inv g ff fo' h with
      ⟨v, rfl, rfl⟩ | ⟨t, rfl, hu, rfl⟩ | ⟨t, v, rfl, hu, hr, rfl⟩
    · exact ⟨_, _, rfl, rfl, fun cx => keyOf_freeze g cx _ _ h⟩
    · exact ⟨_, _, rfl, rfl, fun cx => keyOf_freeze g cx _ _ h⟩
    · exact ⟨_, _, rfl, rfl, fun cx => keyOf_freeze g cx _ _ h⟩

/-- Inversion of `freezeStep`: freezing leaves the control fields
untouched and freezes each template-capable field independently. -/
theorem freezeStep_fields (g : Globals) (s s' : Step)
    (h : freezeStep g s = .ok s') :
    s'.id = s.id ∧
    s'.op = s.op ∧
    s'.read = s.read ∧
    s'.must_pass = s.must_pass ∧
    s'.whitelist = s.whitelist ∧
    s'.pattern = s.pattern ∧
    s'.dflt = s.dflt ∧
    freezeF g s.ref = .ok s'.ref ∧
    freezeF g s.max_wobble = .ok s'.max_wobble ∧
    freezeF g s.max_mismatch = .ok s'.max_mismatch ∧
    freezeF g s.base_offset = .ok s'.base_offset ∧
    freezeF g s.hamming_fn = .ok s'.hamming_fn ∧
    freezeF g s.store_pos_as = .ok s'.store_pos_as ∧
    freezeF g s.start = .ok s'.start ∧
    freezeF g s.len_ = .ok s'.len_ ∧
    freezeF g s.store_seq_as = .ok s'.store_seq_as ∧
    freezeF g s.store_match_as = .ok s'.store_match_as ∧
    freezeF g s.store_result_as = .ok s'.store_result_as ∧
    freezeF g s.expression = .ok s'.expression ∧
    freezeF g s.store_as = .ok s'.store_as ∧
    freezeF g s.pass_if = .ok s'.pass_if := by
  unfold freezeStep at h
  rcases h1 : freezeF g s.ref with e | f1
  · rw [h1] at h; simp [bind, Except.bind] at h
  rw [h1] at h
  simp only [bind, Except.bind] at h
  rcases h2 : freezeF g s.max_wobble with e | f2
  · rw [h2] at h; simp [bind, Except.bind] at h
  rw [h2] at h
  simp only [bind, Except.bind] at h
  rcases h3 : freezeF g s.max_mismatch with e | f3
  · rw [h3] at h; simp [bind, Except.bind] at h
  rw [h3] at h
  simp only [bind, Except.bind] at h
  rcases h4 : freezeF g s.base_offset with e | f4
  · rw [h4] at h; simp [bind, Except.bind] at h
  rw [h4] at h
  simp only [bind, Except.bind] at h
  rcases h5 : freezeF g s.hamming_fn with e | f5
  · rw [h5] at h; simp [bind, Except.bind] at h
  rw [h5] at h
  simp only [bind, Except.bind] at h
  rcases h6 : freezeF g s.store_pos_as with e | f6
  · rw [h6] at h; simp [bind, Except.bind] at h
  rw [h6] at h
  simp only [bind, Except.bind] at h
  rcases h7 : freezeF g s.start with e | f7
  · rw [h7] at h; simp [bind, Except.bind] at h
  rw [h7] at h
  simp only [bind, Except.bind] at h
  rcases h8 : freezeF g s.len_ with e | f8
  · rw [h8] at h; simp [bind, Except.bind] at h
  rw [h8] at h
  simp only [bind, Except.bind] at h
  rcases h9 : freezeF g s.store_seq_as with e | f9
  · rw [h9] at h; simp [bind, Except.bind] at h
  rw [h9] at h
  simp only [bind, Except.bind] at h
  rcases h10 : freezeF g s.store_match_as with e | f10
  · rw [h10] at h; simp [bind, Except.bind] at h
  rw [h10] at h
  simp only [bind, Except.bind] at h
  rcases h11 : freezeF g s.store_result_as with e | f11
  · rw [h11] at h; simp [bind, Except.bind] at h
  rw [h11] at h
  simp only [bind, Except.bind] at h
  rcases h12 : freezeF g s.expression with e | f12
  · rw [h12] at h; simp [bind, Except.bind] at h
  rw [h12] at h
  simp only [bind, Except.bind] at h
  rcases h13 : freezeF g s.store_as with e | f13
  · rw [h13] at h; simp [bind, Except.bind] at h
  rw [h13] at h
  simp only [bind, Except.bind] at h
  rcases h14 : freezeF g s.pass_if with e | f14
  · rw [h14] at h; simp [bind, Except.bind] at h
  rw [h14] at h
  simp only [bind, Except.bind] at h
  have hrec := Except.ok.inj h
  subst hrec
  exact ⟨rfl, rfl, rfl, rfl, rfl, rfl, rfl, rfl, rfl, rfl, rfl, rfl, rfl, rfl, rfl, rfl, rfl, rfl, rfl, rfl, rfl⟩

theorem processTest_freeze (P Q : ReadParser) (hg : P.globals = Q.globals)
    (s s' : Step) (hfs : freezeStep Q.globals s = .ok s')
    (seq : String) (ctx : Context) :
    processTest false P s' seq ctx = processTest true Q s seq ctx := by
  obtain ⟨hid, hop, hread, hmp, hwl, hpat, hdf, hfref, hfmw, hfmm, hfbo,
    hfhf, hfspa, hfst, hfln, hfssa, hfsma, hfsra, hfex, hfsa, hfpi⟩ :=
    freezeStep_fields Q.globals s s' hfs
  rcases keyOfOpt_freeze Q.globals s.store_result_as
      s'.store_result_as hfsra with ⟨hn, hn'⟩ | ⟨ff, ff', hsm, hsm', hkeq⟩
  · simp only [processTest, hg,
      getParam_freeze Q.globals ctx s.expression s'.expression none
        Conv.cnone hfex, hn, hn', hid]
  · simp only [processTest, hg,
      getParam_freeze Q.globals ctx s.expression s'.expression none
        Conv.cnone hfex, hsm, hsm', hkeq, hid]

theorem processCompute_freeze (P Q : ReadParser)
    (hg : P.globals = Q.globals)
    (s s' : Step) (hfs : freezeStep Q.globals s = .ok s')
    (seq : String) (ctx : Context) :
    processCompute false P s' seq ctx = processCompute true Q s seq ctx := by
  obtain ⟨hid, hop, hread, hmp, hwl, hpat, hdf, hfref, hfmw, hfmm, hfbo,
    hfhf, hfspa, hfst, hfln, hfssa, hfsma, hfsra, hfex, hfsa, hfpi⟩ :=
    freezeStep_fields Q.globals s s' hfs
  have hex := getParam_freeze Q.globals ctx s.expression s'.expression
    none Conv.cnone hfex
  have hpi : ∀ cx : Context,
      getParam Q.globals cx s'.pass_if none Conv.cbool =
        getParam Q.globals cx s.pass_if none Conv.cbool :=
    fun cx => getParam_freeze Q.globals cx s.pass_if s'.pass_if none
      Conv.cbool hfpi
  have hpiShape : (s.pass_if = none ∧ s'.pass_if = none) ∨
      (∃ pf pf', s.pass_if = some pf ∧ s'.pass_if = some pf') := by
    rcases hps : s.pass_if with _ | pf
    · rw [hps] at hfpi
      exact Or.inl ⟨rfl, freezeF_none Q.globals s'.pass_if hfpi⟩
    · rw [hps] at hfpi
      rcases freezeF_inv Q.globals pf s'.pass_if hfpi with
        ⟨v, -, he⟩ | ⟨t, -, -, he⟩ | ⟨t, v, -, -, -, he⟩
      · exact Or.inr ⟨pf, _, rfl, he⟩
      · exact Or.inr ⟨pf, _, rfl, he⟩
      · exact Or.inr ⟨pf, _, rfl, he⟩
  rcases keyOfOpt_freeze Q.globals s.store_as s'.store_as hfsa with
    ⟨hn, hn'⟩ | ⟨ff, ff', hsm, hsm', hkeq⟩
  · rcases hpiShape with ⟨hp, hp'⟩ | ⟨pf, pf', hp, hp'⟩
    · simp only [processCompute, hg, hex, hn, hn', hp, hp']
    · have hpi2 : ∀ cx : Context,
          getParam Q.globals cx (some pf') none Conv.cbool =
            getParam Q.globals cx (some pf) none Conv.cbool := by
        intro cx
        rw [← hp, ← hp']
        exact hpi cx
      simp only [processCompute, hg, hex, hn, hn', hp, hp', hpi2]
  · rcases hpiShape with ⟨hp, hp'⟩ | ⟨pf, pf', hp, hp'⟩
    · simp only [processCompute, hg, hex, hsm, hsm', hkeq, hp, hp']
    · have hpi2 : ∀ cx : Context,
          getParam Q.globals cx (some pf') none Conv.cbool =
            getParam Q.globals cx (some pf) none Conv.cbool := by
        intro cx
        rw [← hp, ← hp']
        exact hpi cx
      simp only [processCompute, hg, hex, hsm, hsm', hkeq, hp, hp', hpi2]

theorem processMatch_freeze (P Q : ReadParser)
    (hg : P.globals = Q.globals)
    (s s' : Step) (hfs : freezeStep Q.globals s = .ok s')
    (seq : String) (ctx : Context) :
    processMatch false P s' seq ctx = processMatch true Q s seq ctx := by
  obtain ⟨hid, hop, hread, hmp, hwl, hpat, hdf, hfref, hfmw, hfmm, hfbo,
    hfhf, hfspa, hfst, hfln, hfssa, hfsma, hfsra, hfex, hfsa, hfpi⟩ :=
    freezeStep_fields Q.globals s s' hfs
  have h1 := getParam_freeze Q.globals ctx s.ref s'.ref none
    Conv.cnone hfref
  have h2 := getParam_freeze Q.globals ctx s.max_wobble s'.max_wobble
    none Conv.cint hfmw
  have h3 := getParam_freeze Q.globals ctx s.max_mismatch
    s'.max_mismatch none Conv.cint hfmm
  have h4 := getParam_freeze Q.globals ctx s.base_offset s'.base_offset
    (some (Val.vint 0)) Conv.cint hfbo
  have h5 := getParam_freeze Q.globals ctx s.hamming_fn s'.hamming_fn
    none Conv.cnone hfhf
  rcases keyOfOpt_freeze Q.globals s.store_pos_as s'.store_pos_as hfspa
    with ⟨hn, hn'⟩ | ⟨ff, ff', hsm, hsm', hkeq⟩
  · simp only [processMatch, hg, h1, h2, h3, h4, h5, hmp, hn, hn']
  · simp only [processMatch, hg, h1, h2, h3, h4, h5, hmp, hsm, hsm',
      hkeq]

theorem processHammingTest_freeze (P Q : ReadParser)
    (hg : P.globals = Q.globals)
    (s s' : Step) (hfs : freezeStep Q.globals s = .ok s')
    (seq : String) (ctx : Context) :
    processHammingTest false P s' seq ctx =
      processHammingTest true Q s seq ctx := by
  obtain ⟨hid, hop, hread, hmp, hwl, hpat, hdf, hfref, hfmw, hfmm, hfbo,
    hfhf, hfspa, hfst, hfln, hfssa, hfsma, hfsra, hfex, hfsa, hfpi⟩ :=
    freezeStep_fields Q.globals s s' hfs
  have h1 := getParam_freeze Q.globals ctx s.ref s'.ref none
    Conv.cnone hfref
  have h2 := getParam_freeze Q.globals ctx s.start s'.start none
    Conv.cint hfst
  have h3 := getParam_freeze Q.globals ctx s.len_ s'.len_ none
    Conv.cint hfln
  have h4 := getParam_freeze Q.globals ctx s.max_mismatch
    s'.max_mismatch none Conv.cint hfmm
  have h5 := getParam_freeze Q.globals ctx s.hamming_fn s'.hamming_fn
    none Conv.cnone hfhf
  rcases keyOfOpt_freeze Q.globals s.store_result_as s'.store_result_as
    hfsra with ⟨hn, hn'⟩ | ⟨ff, ff', hsm, hsm', hkeq⟩
  · simp only [processHammingTest, hg, h1, h2, h3, h4, h5, hmp, hid,
      hn, hn']
  · simp only [processHammingTest, hg, h1, h2, h3, h4, h5, hmp, hid,
      hsm, hsm', hkeq]

theorem processExtract_freeze (P Q : ReadParser)
    (hg : P.globals = Q.globals)
    (hw : P.whitelist_sets = Q.whitelist_sets)
    (s s' : Step) (hfs : freezeStep Q.globals s = .ok s')
    (seq : String) (ctx : Context) :
    processExtract false P s' seq ctx =
      processExtract true Q s seq ctx := by
  obtain ⟨hid, hop, hread, hmp, hwl, hpat, hdf, hfref, hfmw, hfmm, hfbo,
    hfhf, hfspa, hfst, hfln, hfssa, hfsma, hfsra, hfex, hfsa, hfpi⟩ :=
    freezeStep_fields Q.globals s s' hfs
  have h1 := getParam_freeze Q.globals ctx s.start s'.start none
    Conv.cint hfst
  have h2 := getParam_freeze Q.globals ctx s.len_ s'.len_ none
    Conv.cint hfln
  rcases keyOfOpt_freeze Q.globals s.store_seq_as s'.store_seq_as hfssa
    with ⟨hn, hn'⟩ | ⟨ff, ff', hsm, hsm', hkeq⟩ <;>
  rcases keyOfOpt_freeze Q.globals s.store_match_as s'.store_match_as
      hfsma with ⟨hn2, hn2'⟩ | ⟨gf, gf', hsm2, hsm2', hkeq2⟩
  · simp only [processExtract, hg, hw, h1, h2, hwl, hid, hn, hn', hn2,
      hn2']
  · simp only [processExtract, hg, hw, h1, h2, hwl, hid, hn, hn', hsm2,
      hsm2', hkeq2]
  · simp only [processExtract, hg, hw, h1, h2, hwl, hid, hsm, hsm',
      hkeq, hn2, hn2']
  · simp only [processExtract, hg, hw, h1, h2, hwl, hid, hsm, hsm',
      hkeq, hsm2, hsm2', hkeq2]

theorem processRegexSearch_freeze (P Q : ReadParser)
    (hg : P.globals = Q.globals)
    (hr : P.regex_patterns = Q.regex_patterns)
    (s s' : Step) (hfs : freezeStep Q.globals s = .ok s')
    (seq : String) (ctx : Context) :
    processRegexSearch false P s' seq ctx =
      processRegexSearch true Q s seq ctx := by
  obtain ⟨hid, hop, hread, hmp, hwl, hpat, hdf, hfref, hfmw, hfmm, hfbo,
    hfhf, hfspa, hfst, hfln, hfssa, hfsma, hfsra, hfex, hfsa, hfpi⟩ :=
    freezeStep_fields Q.globals s s' hfs
  rcases keyOfOpt_freeze Q.globals s.store_pos_as s'.store_pos_as hfspa
    with ⟨hn, hn'⟩ | ⟨ff, ff', hsm, hsm', hkeq⟩
  · simp only [processRegexSearch, hg, hr, hpat, hdf, hn, hn']
  · rcases keyOfOpt_freeze Q.globals s.store_match_as s'.store_match_as
      hfsma with ⟨hn2, hn2'⟩ | ⟨gf, gf', hsm2, hsm2', hkeq2⟩
    · simp only [processRegexSearch, hg, hr, hpat, hdf, hsm, hsm', hkeq,
        hn2, hn2']
    · simp only [processRegexSearch, hg, hr, hpat, hdf, hsm, hsm', hkeq,
        hsm2, hsm2', hkeq2]

theorem runStep_freeze (P Q : ReadParser)
    (hg : P.globals = Q.globals)
    (hw : P.whitelist_sets = Q.whitelist_sets)
    (hr : P.regex_patterns = Q.regex_patterns)
    (s s' : Step) (hfs : freezeStep Q.globals s = .ok s')
    (seq : String) (ctx : Context) :
    runStep false P s' seq ctx = runStep true Q s seq ctx := by
  have hop : s'.op = s.op := (freezeStep_fields Q.globals s s' hfs).2.1
  unfold runStep
  rw [hop]
  split_ifs
  · exact processMatch_freeze P Q hg s s' hfs seq ctx
  · exact processExtract_freeze P Q hg hw s s' hfs seq ctx
  · exact processHammingTest_freeze P Q hg s s' hfs seq ctx
  · exact processTest_freeze P Q hg s s' hfs seq ctx
  · exact processRegexSearch_freeze P Q hg hr s s' hfs seq ctx
  · exact processCompute_freeze P Q hg s s' hfs seq ctx
  · rfl

theorem parseSteps_freeze (P Q : ReadParser)
    (hg : P.globals = Q.globals)
    (hw : P.whitelist_sets = Q.whitelist_sets)
    (hr : P.regex_patterns = Q.regex_patterns)
    (name seq1 seq2 : String) :
    ∀ (steps steps' : List Step) (ctx : Context) (log : ParseLog),
      freezeConstants Q.globals steps = .ok steps' →
      parseSteps false P name seq1 seq2 steps' ctx log =
        parseSteps true Q name seq1 seq2 steps ctx log := by
  intro steps
  induction steps with
  | nil =>
    intro steps' ctx log hfc
    simp only [freezeConstants, List.mapM_nil, pure, Except.pure,
      Except.ok.injEq] at hfc
    rw [← hfc]
    rfl
  | cons s rest ih =>
    intro steps' ctx log hfc
    rw [freezeConstants, List.mapM_cons] at hfc
    rcases hs' : freezeStep Q.globals s with e | s'
    · rw [hs'] at hfc; simp [bind, Except.bind] at hfc
    rw [hs'] at hfc
    simp only [bind, Except.bind] at hfc
    rcases hrest : List.mapM (freezeStep Q.globals) rest with e | rest'
    · rw [hrest] at hfc; simp [bind, Except.bind] at hfc
    rw [hrest] at hfc
    simp only [bind, Except.bind, pure, Except.pure,
      Except.ok.injEq] at hfc
    rw [← hfc]
    have hfields := freezeStep_fields Q.globals s s' hs'
    have hid : s'.id = s.id := hfields.1
    have hread : s'.read = s.read := hfields.2.2.1
    have hmp : s'.must_pass = s.must_pass := hfields.2.2.2.1
    have hsel : selectSeq s' seq1 seq2 = selectSeq s seq1 seq2 := by
      unfold selectSeq; rw [hread]
    have hrs : ∀ (sq : String) (cx : Context),
        runStep false P s' sq cx = runStep true Q s sq cx :=
      fun sq cx => runStep_freeze P Q hg hw hr s s' hs' sq cx
    have hih : ∀ (cx : Context) (lg : ParseLog),
        parseSteps false P name seq1 seq2 rest' cx lg =
          parseSteps true Q name seq1 seq2 rest cx lg :=
      fun cx lg => ih rest' cx lg (by rw [freezeConstants]; exact hrest)
    simp only [parseSteps, hsel, hid, hmp, hrs, hih]

/-- C9: constant freezing is semantics-preserving — for every pipeline
whose constant fields freeze cleanly and every read pair, running the
source `parse` (raw store keys) on the frozen pipeline yields exactly the
outcome and log of running the per-read-rendered reading of `parse` on the
un-frozen pipeline, so the resulting contexts are identical. -/
theorem freeze_semantics_preserving (P : ReadParser) (steps' : List Step)
    (hfz : freezeConstants P.globals P.steps = .ok steps')
    (log : ParseLog) (nm s1 q1 s2 q2 : String) :
    parse { P with steps := steps' } log nm s1 q1 s2 q2 =
      parseRenderedKeys P log nm s1 q1 s2 q2 := by
  unfold parse parseRenderedKeys parseImpl
  exact parseSteps_freeze { P with steps := steps' } P rfl rfl rfl nm s1
    s2 P.steps steps' _ _ hfz

/-- Witness for C9 at a concrete input: a pipeline whose `start`,
`length` and store key are globals-only templates, on the read
`NNNGGGTACCTAG`. -/
theorem freeze_semantics_preserving_witness :
    freezeConstants frzParser.globals frzParser.steps = .ok frzFrozen ∧
    parse { frzParser with steps := frzFrozen }
        (reset_parse_log frzParser.steps) "r" "NNNGGGTACCTAG" "q" "" "" =
      parseRenderedKeys frzParser (reset_parse_log frzParser.steps) "r"
        "NNNGGGTACCTAG" "q" "" "" :=
  ⟨by decide,
    freeze_semantics_preserving frzParser frzFrozen (by decide)
      (reset_parse_log frzParser.steps) "r" "NNNGGGTACCTAG" "q" "" ""⟩

/-! ## Theorems: globals resolution (C8) -/

theorem renderG_replicate_ref (m : Nat) (g : List (String × GVal))
    (w : GVal) (hw : List.lookup "a" g = some w) :
    renderG g (List.replicate m (GPart.glit "x") ++ [GPart.gref "a"]) =
      List.replicate m (GPart.glit "x") ++ w := by
  induction m with
  | zero => simp [renderG, hw]
  | succ n ih =>
    rw [List.replicate_succ]
    simp only [List.cons_append]
    rw [show ∀ (p : GPart) (v : GVal),
        renderG g (p :: v) =
          (match p with
           | .glit s => [GPart.glit s]
           | .gref k => (List.lookup k g).getD [GPart.gref k]) ++
            renderG g v from fun p v => rfl]
    rw [ih]
    rfl

theorem gvalStr_length_replicate_ref (m : Nat) :
    (gvalStr (List.replicate m (GPart.glit "x") ++
      [GPart.gref "a"])).length =
      m + ("\x7b\x7b params.a \x7d\x7d" : String).length := by
  induction m with
  | zero => rfl
  | succ n ih =>
    rw [List.replicate_succ]
    simp only [List.cons_append]
    show (gpartStr (GPart.glit "x") ++ _).length = _
    rw [String.length_append, ih]
    rw [show (gpartStr (GPart.glit "x")).length = 1 from rfl]
    omega

theorem gpass_cyc_state (m : Nat) :
    (gpass [("a", List.replicate m (GPart.glit "x") ++
        [GPart.gref "a"])]).1 =
      [("a", List.replicate (2 * m) (GPart.glit "x") ++
        [GPart.gref "a"])] := by
  have hlk : List.lookup "a"
      [("a", List.replicate m (GPart.glit "x") ++ [GPart.gref "a"])] =
      some (List.replicate m (GPart.glit "x") ++ [GPart.gref "a"]) := by
    simp [List.lookup]
  have hrend := renderG_replicate_ref m
    [("a", List.replicate m (GPart.glit "x") ++ [GPart.gref "a"])]
    (List.replicate m (GPart.glit "x") ++ [GPart.gref "a"]) hlk
  unfold gpass
  simp only [List.map_cons, List.map_nil, List.foldl_cons,
    List.foldl_nil, gstep, hlk, hrend, updG, List.map_cons,
    List.map_nil, if_pos]
  rw [← List.append_assoc, ← List.replicate_add]
  rw [show m + m = 2 * m from by omega]

theorem gpass_cyc_flag (m : Nat) (hm : 1 ≤ m) :
    (gpass [("a", List.replicate m (GPart.glit "x") ++
        [GPart.gref "a"])]).2 = true := by
  have hlk : List.lookup "a"
      [("a", List.replicate m (GPart.glit "x") ++ [GPart.gref "a"])] =
      some (List.replicate m (GPart.glit "x") ++ [GPart.gref "a"]) := by
    simp [List.lookup]
  have hrend := renderG_replicate_ref m
    [("a", List.replicate m (GPart.glit "x") ++ [GPart.gref "a"])]
    (List.replicate m (GPart.glit "x") ++ [GPart.gref "a"]) hlk
  have hne : gvalStr (List.replicate m (GPart.glit "x") ++
        (List.replicate m (GPart.glit "x") ++ [GPart.gref "a"])) ≠
      gvalStr (List.replicate m (GPart.glit "x") ++ [GPart.gref "a"]) := by
    intro hcontra
    have hlen := congrArg String.length hcontra
    rw [← List.append_assoc, ← List.replicate_add] at hlen
    rw [gvalStr_length_replicate_ref, gvalStr_length_replicate_ref]
      at hlen
    omega
  unfold gpass
  simp only [List.map_cons, List.map_nil, List.foldl_cons,
    List.foldl_nil, gstep, hlk, hrend, Bool.false_or]
  rw [bne_iff_ne]
  exact hne

theorem gpassN_cyc (n : Nat) :
    ∀ m : Nat, gpassN n
        [("a", List.replicate m (GPart.glit "x") ++ [GPart.gref "a"])] =
      [("a", List.replicate (2 ^ n * m) (GPart.glit "x") ++
        [GPart.gref "a"])] := by
  induction n with
  | zero => intro m; rw [gpassN]; norm_num
  | succ k ih =>
    intro m
    rw [gpassN, gpass_cyc_state, ih (2 * m)]
    rw [show 2 ^ k * (2 * m) = 2 ^ (k + 1) * m from by ring]

/-- C8 counterexample: on the cyclic globals table
`{a: "x\x7b\x7b params.a \x7d\x7d"}` no pass of `_resolve_globals` ever reports
`changed = False` — the value doubles its literal prefix on every pass, so
the `while changed` loop iterates unboundedly instead of rejecting the
cycle. -/
theorem resolve_globals_cycle_not_rejected :
    ¬ ∃ n : Nat, (gpass (gpassN n gCyc)).2 = false := by
  rintro ⟨n, hn⟩
  have hcyc : gpassN n gCyc =
      [("a", List.replicate (2 ^ n * 1) (GPart.glit "x") ++
        [GPart.gref "a"])] := by
    have h1 : gCyc =
        [("a", List.replicate 1 (GPart.glit "x") ++
          [GPart.gref "a"])] := rfl
    rw [h1, gpassN_cyc n 1]
  rw [hcyc, gpass_cyc_flag (2 ^ n * 1)
    (by simp only [Nat.mul_one]; exact Nat.one_le_two_pow)] at hn
  exact absurd hn (by simp)

theorem lookup_mem {β : Type} (g : List (String × β)) (k : String)
    (w : β) (h : List.lookup k g = some w) : (k, w) ∈ g := by
  induction g with
  | nil => simp [List.lookup] at h
  | cons p rest ih =>
    rw [List.lookup_cons] at h
    by_cases hk : k = p.1
    · simp only [hk, beq_self_eq_true] at h
      injection h with h
      exact List.mem_cons.mpr (Or.inl (by rw [hk, ← h]))
    · have hb : (k == p.1) = false := by simpa using hk
      simp only [hb] at h
      exact List.mem_cons_of_mem p (ih h)

theorem updG_map_fst (g : List (String × GVal)) (k : String) (v : GVal) :
    (updG g k v).map Prod.fst = g.map Prod.fst := by
  induction g with
  | nil => rfl
  | cons p rest ih =>
    simp only [updG, List.map_cons] at ih ⊢
    by_cases hp : p.1 = k
    · rw [if_pos hp]
      simp only [List.map_cons, ih, hp]
    · rw [if_neg hp]
      simp only [List.map_cons, ih]

theorem lookup_updG_ne (g : List (String × GVal)) (k k' : String)
    (v : GVal) (hne : k' ≠ k) :
    List.lookup k' (updG g k v) = List.lookup k' g := by
  induction g with
  | nil => rfl
  | cons p rest ih =>
    simp only [updG, List.map_cons]
    by_cases hp : p.1 = k
    · rw [if_pos hp, List.lookup_cons, List.lookup_cons]
      have hb : (k' == k) = false := by simpa using hne
      have hb2 : (k' == p.1) = false := by
        rw [hp]; exact hb
      simp only [hb, hb2]
      exact ih
    · rw [if_neg hp, List.lookup_cons, List.lookup_cons]
      by_cases hk : k' = p.1
      · simp [hk]
      · have hb : (k' == p.1) = false := by simpa using hk
        simp only [hb]
        exact ih

theorem lookup_updG_self (g : List (String × GVal)) (k : String)
    (v w : GVal) (h : List.lookup k g = some w) :
    List.lookup k (updG g k v) = some v := by
  induction g with
  | nil => simp [List.lookup] at h
  | cons p rest ih =>
    rw [List.lookup_cons] at h
    simp only [updG, List.map_cons]
    by_cases hp : p.1 = k
    · rw [if_pos hp, List.lookup_cons]
      simp
    · rw [if_neg hp, List.lookup_cons]
      have hb : (k == p.1) = false := by
        simp only [beq_eq_false_iff_ne, ne_eq]
        exact fun he => hp he.symm
      simp only [hb] at h ⊢
      exact ih h

theorem lookup_updG_isSome (g : List (String × GVal)) (k k' : String)
    (v : GVal) (h : (List.lookup k' g).isSome = true) :
    (List.lookup k' (updG g k v)).isSome = true := by
  by_cases hk : k' = k
  · subst hk
    obtain ⟨w, hw⟩ := Option.isSome_iff_exists.mp h
    rw [lookup_updG_self g k' v w hw]
    rfl
  · rw [lookup_updG_ne g k k' v hk]
    exact h

theorem grefs_cons_lit (s : String) (v : GVal) :
    grefs (GPart.glit s :: v) = grefs v := rfl

theorem grefs_cons_ref (k : String) (v : GVal) :
    grefs (GPart.gref k :: v) = k :: grefs v := rfl

theorem renderG_refFree (g : List (String × GVal)) (v : GVal)
    (h : grefs v = []) : renderG g v = v := by
  induction v with
  | nil => rfl
  | cons p rest ih =>
    rcases p with s | k
    · have hrest : grefs rest = [] := h
      show [GPart.glit s] ++ renderG g rest = _
      rw [ih hrest]
      rfl
    · exact absurd (h : k :: grefs rest = []) (List.cons_ne_nil _ _)

theorem grefs_renderG (g : List (String × GVal)) (v : GVal) (k2 : String)
    (h : k2 ∈ grefs (renderG g v)) :
    (∃ k1 ∈ grefs v, ∃ w, List.lookup k1 g = some w ∧ k2 ∈ grefs w) ∨
    (k2 ∈ grefs v ∧ List.lookup k2 g = none) := by
  induction v with
  | nil => simp [renderG, grefs] at h
  | cons p rest ih =>
    rcases p with s | k1
    · have h' : k2 ∈ grefs (renderG g rest) := h
      rcases ih h' with ⟨ka, hka, w, hw, hk2⟩ | ⟨hk2, hnone⟩
      · exact Or.inl ⟨ka, by rw [grefs_cons_lit]; exact hka, w, hw, hk2⟩
      · exact Or.inr ⟨by rw [grefs_cons_lit]; exact hk2, hnone⟩
    · have hsplit : renderG g (GPart.gref k1 :: rest) =
          (List.lookup k1 g).getD [GPart.gref k1] ++ renderG g rest :=
        rfl
      rw [hsplit] at h
      rw [grefs, List.filterMap_append] at h
      rcases List.mem_append.mp h with hleft | hright
      · rcases hlk : List.lookup k1 g with _ | w
        · rw [hlk] at hleft
          simp only [Option.getD_none] at hleft
          have hk21 : k2 = k1 := List.mem_singleton.mp hleft
          refine Or.inr ⟨?_, hk21 ▸ hlk⟩
          rw [grefs_cons_ref, hk21]
          exact List.mem_cons_self _ _
        · rw [hlk] at hleft
          simp only [Option.getD_some] at hleft
          exact Or.inl ⟨k1,
            by rw [grefs_cons_ref]; exact List.mem_cons_self _ _,
            w, hlk, hleft⟩
      · rcases ih hright with ⟨ka, hka, w, hw, hk2⟩ | ⟨hk2, hnone⟩
        · exact Or.inl ⟨ka,
            by rw [grefs_cons_ref]; exact List.mem_cons_of_mem _ hka,
            w, hw, hk2⟩
        · exact Or.inr ⟨by
            rw [grefs_cons_ref]
            exact List.mem_cons_of_mem _ hk2, hnone⟩

theorem lookup_of_mem_nodup (g : List (String × GVal)) (k : String)
    (w : GVal) (hnd : (g.map Prod.fst).Nodup) (hmem : (k, w) ∈ g) :
    List.lookup k g = some w := by
  induction g with
  | nil => exact absurd hmem (List.not_mem_nil _)
  | cons p rest ih =>
    simp only [List.map_cons, List.nodup_cons] at hnd
    rcases List.mem_cons.mp hmem with rfl | hmem'
    · rw [List.lookup_cons]
      simp
    · rw [List.lookup_cons]
      have hk : k ≠ p.1 := by
        intro he
        apply hnd.1
        rw [← he]
        exact List.mem_map.mpr ⟨(k, w), hmem', rfl⟩
      have hb : (k == p.1) = false := by simpa using hk
      simp only [hb]
      exact ih hnd.2 hmem'

theorem updG_of_not_mem (g : List (String × GVal)) (k : String)
    (v : GVal) (h : k ∉ g.map Prod.fst) : updG g k v = g := by
  induction g with
  | nil => rfl
  | cons p rest ih =>
    simp only [List.map_cons, List.mem_cons, not_or] at h
    simp only [updG, List.map_cons]
    rw [if_neg (fun he => h.1 he.symm)]
    have := ih h.2
    unfold updG at this
    rw [this]

theorem updG_self_of_nodup (g : List (String × GVal)) (k : String)
    (v : GVal) (hnd : (g.map Prod.fst).Nodup)
    (h : List.lookup k g = some v) : updG g k v = g := by
  induction g with
  | nil => rfl
  | cons p rest ih =>
    simp only [List.map_cons, List.nodup_cons] at hnd
    rw [List.lookup_cons] at h
    by_cases hp : p.1 = k
    · have hb : (k == p.1) = true := by simp [hp]
      simp only [hb] at h
      injection h with h
      simp only [updG, List.map_cons, if_pos hp]
      have hrest : updG rest k v = rest :=
        updG_of_not_mem rest k v (by rw [← hp]; exact hnd.1)
      unfold updG at hrest
      rw [hrest, show (k, v) = p from by rw [← hp, ← h]]
    · have hb : (k == p.1) = false := by
        simp only [beq_eq_false_iff_ne, ne_eq]
        exact fun he => hp he.symm
      simp only [hb] at h
      simp only [updG, List.map_cons, if_neg hp]
      have := ih hnd.2 h
      unfold updG at this
      rw [this]

theorem lookup_none_iff (g : List (String × GVal)) (k : String) :
    List.lookup k g = none ↔ k ∉ g.map Prod.fst := by
  induction g with
  | nil => simp [List.lookup]
  | cons p rest ih =>
    rw [List.lookup_cons]
    by_cases hk : k = p.1
    · have hb : (k == p.1) = true := by simp [hk]
      simp only [hb, List.map_cons, List.mem_cons]
      constructor
      · intro h; exact absurd h (by simp)
      · intro h; exact absurd (Or.inl hk) h
    · have hb : (k == p.1) = false := by simpa using hk
      simp only [hb, List.map_cons, List.mem_cons]
      rw [ih]
      constructor
      · intro h hor
        rcases hor with h1 | h2
        · exact hk h1
        · exact h h2
      · intro h hmem
        exact h (Or.inr hmem)

theorem gstep_spec (rank : String → Nat) (d : Nat)
    (g : List (String × GVal)) (b : Bool) (k : String)
    (hI : ∀ p ∈ g,
      (∀ k2 ∈ grefs p.2, (∃ w, List.lookup k2 g = some w) ∧
        rank k2 < rank p.1) ∧
      (rank p.1 < d → grefs p.2 = [])) :
    ((gstep (g, b) k).1.map Prod.fst = g.map Prod.fst) ∧
    (∀ p ∈ (gstep (g, b) k).1,
      (∀ k2 ∈ grefs p.2,
        (∃ w, List.lookup k2 (gstep (g, b) k).1 = some w) ∧
        rank k2 < rank p.1) ∧
      (rank p.1 < d → grefs p.2 = [])) ∧
    (∀ k' w, List.lookup k' g = some w → grefs w = [] →
      ∃ w', List.lookup k' (gstep (g, b) k).1 = some w' ∧
        grefs w' = []) ∧
    (rank k ≤ d →
      ∀ w', List.lookup k (gstep (g, b) k).1 = some w' →
        grefs w' = []) := by
  rcases hlk : List.lookup k g with _ | v
  · simp only [gstep, hlk]
    refine ⟨trivial, hI, fun k' w hw hrf => ⟨w, hw, hrf⟩, ?_⟩
    intro _ w' hw'
    exact absurd hw' (by simp)
  · simp only [gstep, hlk]
    have hmemkv : (k, v) ∈ g := lookup_mem g k v hlk
    have hRefv := (hI (k, v) hmemkv).1
    have hrefsr : ∀ k2 ∈ grefs (renderG g v), rank k2 < rank k := by
      intro k2 hk2
      rcases grefs_renderG g v k2 hk2 with
        ⟨k1, hk1, w, hw, hk2w⟩ | ⟨hk2v, hnone⟩
      · have h1 := (hI (k1, w) (lookup_mem g k1 w hw)).1 k2 hk2w
        exact lt_trans h1.2 (hRefv k1 hk1).2
      · obtain ⟨⟨w, hw⟩, -⟩ := hRefv k2 hk2v
        rw [hw] at hnone
        exact absurd hnone (by simp)
    have hrefsr_some : ∀ k2 ∈ grefs (renderG g v),
        ∃ w, List.lookup k2 (updG g k (renderG g v)) = some w := by
      intro k2 hk2
      have hsome : (List.lookup k2 g).isSome = true := by
        rcases grefs_renderG g v k2 hk2 with
          ⟨k1, hk1, w, hw, hk2w⟩ | ⟨hk2v, hnone⟩
        · obtain ⟨⟨w2, hw2⟩, -⟩ := (hI (k1, w) (lookup_mem g k1 w hw)).1
            k2 hk2w
          rw [hw2]; rfl
        · obtain ⟨⟨w, hw⟩, -⟩ := hRefv k2 hk2v
          rw [hw]; rfl
      exact Option.isSome_iff_exists.mp
        (lookup_updG_isSome g k k2 (renderG g v) hsome)
    have hrfr : rank k ≤ d → grefs (renderG g v) = [] := by
      intro hrk
      rw [List.eq_nil_iff_forall_not_mem]
      intro k2 hk2
      rcases grefs_renderG g v k2 hk2 with
        ⟨k1, hk1, w, hw, hk2w⟩ | ⟨hk2v, hnone⟩
      · have hk1d : rank k1 < d := lt_of_lt_of_le (hRefv k1 hk1).2 hrk
        have hwrf := (hI (k1, w) (lookup_mem g k1 w hw)).2 hk1d
        rw [hwrf] at hk2w
        exact absurd hk2w (List.not_mem_nil k2)
      · obtain ⟨⟨w, hw⟩, -⟩ := hRefv k2 hk2v
        rw [hw] at hnone
        exact absurd hnone (by simp)
    refine ⟨updG_map_fst g k (renderG g v), ?_, ?_, ?_⟩
    · intro p' hp'
      obtain ⟨p, hp, hfp⟩ := List.mem_map.mp hp'
      by_cases hpk : p.1 = k
      · rw [if_pos hpk] at hfp
        rw [← hfp]
        exact ⟨fun k2 hk2 => ⟨hrefsr_some k2 hk2, hrefsr k2 hk2⟩,
          fun hlt => hrfr (le_of_lt hlt)⟩
      · rw [if_neg hpk] at hfp
        rw [← hfp]
        refine ⟨fun k2 hk2 => ?_, (hI p hp).2⟩
        obtain ⟨⟨w, hw⟩, hlt⟩ := (hI p hp).1 k2 hk2
        refine ⟨?_, hlt⟩
        exact Option.isSome_iff_exists.mp
          (lookup_updG_isSome g k k2 (renderG g v) (by rw [hw]; rfl))
    · intro k' w hw hrf
      by_cases hk' : k' = k
      · subst hk'
        rw [hlk] at hw
        injection hw with hw
        refine ⟨renderG g v,
          lookup_updG_self g k' (renderG g v) v hlk, ?_⟩
        rw [← hw] at hrf
        rw [renderG_refFree g v hrf]
        exact hrf
      · rw [lookup_updG_ne g k k' (renderG g v) hk']
        exact ⟨w, hw, hrf⟩
    · intro hrk w' hw'
      rw [lookup_updG_self g k (renderG g v) v hlk] at hw'
      injection hw' with hw'
      rw [← hw']
      exact hrfr hrk

theorem gfold_spec (rank : String → Nat) (d : Nat) :
    ∀ (ks : List String) (g : List (String × GVal)) (b : Bool),
      (∀ p ∈ g,
        (∀ k2 ∈ grefs p.2, (∃ w, List.lookup k2 g = some w) ∧
          rank k2 < rank p.1) ∧
        (rank p.1 < d → grefs p.2 = [])) →
      ((ks.foldl gstep (g, b)).1.map Prod.fst = g.map Prod.fst) ∧
      (∀ p ∈ (ks.foldl gstep (g, b)).1,
        (∀ k2 ∈ grefs p.2,
          (∃ w, List.lookup k2 (ks.foldl gstep (g, b)).1 = some w) ∧
          rank k2 < rank p.1) ∧
        (rank p.1 < d → grefs p.2 = [])) ∧
      (∀ k' w, List.lookup k' g = some w → grefs w = [] →
        ∃ w', List.lookup k' (ks.foldl gstep (g, b)).1 = some w' ∧
          grefs w' = []) ∧
      (∀ k ∈ ks, rank k ≤ d →
        ∀ w', List.lookup k (ks.foldl gstep (g, b)).1 = some w' →
          grefs w' = []) := by
  intro ks
  induction ks with
  | nil =>
    intro g b hI
    exact ⟨rfl, hI, fun k' w hw hrf => ⟨w, hw, hrf⟩,
      fun k hk => absurd hk (List.not_mem_nil k)⟩
  | cons k ks ih =>
    intro g b hI
    obtain ⟨hs1, hs2, hs3, hs4⟩ := gstep_spec rank d g b k hI
    rcases hgs : gstep (g, b) k with ⟨g1, b1⟩
    rw [hgs] at hs1 hs2 hs3 hs4
    simp only at hs1 hs2 hs3 hs4
    have hfold : (k :: ks).foldl gstep (g, b) = ks.foldl gstep (g1, b1) := by
      rw [List.foldl_cons, hgs]
    rw [hfold]
    obtain ⟨ih1, ih2, ih3, ih4⟩ := ih g1 b1 hs2
    refine ⟨by rw [ih1, hs1], ih2, ?_, ?_⟩
    · intro k' w hw hrf
      obtain ⟨w1, hw1, hrf1⟩ := hs3 k' w hw hrf
      exact ih3 k' w1 hw1 hrf1
    · intro k' hk' hrk w' hw'
      rcases List.mem_cons.mp hk' with rfl | hk's
      · rcases hlq : List.lookup k' g1 with _ | w1
        · exfalso
          have hout_mem :
              k' ∈ (ks.foldl gstep (g1, b1)).1.map Prod.fst := by
            by_contra hnm
            rw [← lookup_none_iff] at hnm
            rw [hnm] at hw'
            exact absurd hw' (by simp)
          rw [ih1] at hout_mem
          rw [lookup_none_iff] at hlq
          exact hlq hout_mem
        · have hrf1 := hs4 hrk w1 hlq
          obtain ⟨w2, hw2, hrf2⟩ := ih3 k' w1 hlq hrf1
          rw [hw'] at hw2
          injection hw2 with hw2
          rw [← hw2] at hrf2
          exact hrf2
      · exact ih4 k' hk's hrk w' hw'

theorem gpass_preserves (rank : String → Nat) (d : Nat)
    (g : List (String × GVal)) (hnd : (g.map Prod.fst).Nodup)
    (hI : ∀ p ∈ g,
      (∀ k2 ∈ grefs p.2, (∃ w, List.lookup k2 g = some w) ∧
        rank k2 < rank p.1) ∧
      (rank p.1 < d → grefs p.2 = [])) :
    ((gpass g).1.map Prod.fst = g.map Prod.fst) ∧
    (∀ p ∈ (gpass g).1,
      (∀ k2 ∈ grefs p.2, (∃ w, List.lookup k2 (gpass g).1 = some w) ∧
        rank k2 < rank p.1) ∧
      (rank p.1 < d + 1 → grefs p.2 = [])) := by
  obtain ⟨h1, h2, h3, h4⟩ :=
    gfold_spec rank d (g.map Prod.fst) g false hI
  rw [show (List.foldl gstep (g, false) (List.map Prod.fst g)) =
    gpass g from rfl] at h1 h2 h3 h4
  refine ⟨h1, ?_⟩
  intro p hp
  refine ⟨(h2 p hp).1, ?_⟩
  intro hlt
  have hk : p.1 ∈ g.map Prod.fst := by
    rw [← h1]
    exact List.mem_map.mpr ⟨p, hp, rfl⟩
  have hnd' : ((gpass g).1.map Prod.fst).Nodup := by
    rw [h1]; exact hnd
  have hlook : List.lookup p.1 (gpass g).1 = some p.2 :=
    lookup_of_mem_nodup (gpass g).1 p.1 p.2 hnd'
      (by rw [show (p.1, p.2) = p from rfl]; exact hp)
  exact h4 p.1 hk (by omega) p.2 hlook

theorem gpassN_preserves (rank : String → Nat) :
    ∀ (n : Nat) (g : List (String × GVal)) (d : Nat),
      (g.map Prod.fst).Nodup →
      (∀ p ∈ g,
        (∀ k2 ∈ grefs p.2, (∃ w, List.lookup k2 g = some w) ∧
          rank k2 < rank p.1) ∧
        (rank p.1 < d → grefs p.2 = [])) →
      ((gpassN n g).map Prod.fst = g.map Prod.fst) ∧
      (∀ p ∈ gpassN n g,
        (∀ k2 ∈ grefs p.2,
          (∃ w, List.lookup k2 (gpassN n g) = some w) ∧
          rank k2 < rank p.1) ∧
        (rank p.1 < d + n → grefs p.2 = [])) := by
  intro n
  induction n with
  | zero =>
    intro g d hnd hI
    exact ⟨rfl, fun p hp => ⟨(hI p hp).1,
      fun hlt => (hI p hp).2 (by omega)⟩⟩
  | succ m ih =>
    intro g d hnd hI
    obtain ⟨h1, h2⟩ := gpass_preserves rank d g hnd hI
    have hnd1 : ((gpass g).1.map Prod.fst).Nodup := by
      rw [h1]; exact hnd
    obtain ⟨ih1, ih2⟩ := ih (gpass g).1 (d + 1) hnd1 h2
    rw [gpassN]
    refine ⟨by rw [ih1, h1], ?_⟩
    intro p hp
    refine ⟨(ih2 p hp).1, fun hlt => (ih2 p hp).2 (by omega)⟩

theorem gpass_fixed (g : List (String × GVal))
    (hnd : (g.map Prod.fst).Nodup)
    (hrf : ∀ p ∈ g, grefs p.2 = []) :
    gpass g = (g, false) := by
  suffices h : ∀ ks : List String, ks.foldl gstep (g, false) = (g, false)
    by exact h (g.map Prod.fst)
  intro ks
  induction ks with
  | nil => rfl
  | cons k ks ih =>
    rw [List.foldl_cons]
    have hstep : gstep (g, false) k = (g, false) := by
      rcases hlk : List.lookup k g with _ | v
      · simp [gstep, hlk]
      · have hvrf : grefs v = [] := hrf (k, v) (lookup_mem g k v hlk)
        have hrv : renderG g v = v := renderG_refFree g v hvrf
        simp only [gstep, hlk, hrv,
          updG_self_of_nodup g k v hnd hlk, bne_self_eq_false,
          Bool.or_self]
    rw [hstep]
    exact ih

/-- C8 (amended): on an acyclic globals table — one admitting a rank
function that strictly decreases along placeholder references, all of
whose references resolve and whose ranks are below `B` — the re-rendering
loop of `_resolve_globals` reaches a fixed point within `B` passes: pass
`B + 1` changes nothing and reports `changed = False`, terminating the
`while` loop.  The original claim's second half — that a cyclic table is
rejected rather than iterated unboundedly — is refuted by
`resolve_globals_cycle_not_rejected`: the source runs until a pass makes
no string change, with no pass bound and no cycle detection. -/
theorem resolve_globals_acyclic_terminates (g0 : List (String × GVal))
    (rank : String → Nat) (B : Nat)
    (hnd : (g0.map Prod.fst).Nodup)
    (href : ∀ p ∈ g0, ∀ k2 ∈ grefs p.2,
      (List.lookup k2 g0).isSome = true ∧ rank k2 < rank p.1)
    (hB : ∀ k ∈ g0.map Prod.fst, rank k < B) :
    gpass (gpassN B g0) = (gpassN B g0, false) := by
  have hI0 : ∀ p ∈ g0,
      (∀ k2 ∈ grefs p.2, (∃ w, List.lookup k2 g0 = some w) ∧
        rank k2 < rank p.1) ∧
      (rank p.1 < 0 → grefs p.2 = []) := by
    intro p hp
    refine ⟨fun k2 hk2 => ?_, fun h => absurd h (by omega)⟩
    obtain ⟨hs, hlt⟩ := href p hp k2 hk2
    exact ⟨Option.isSome_iff_exists.mp hs, hlt⟩
  obtain ⟨h1, h2⟩ := gpassN_preserves rank B g0 0 hnd hI0
  have hndB : ((gpassN B g0).map Prod.fst).Nodup := by
    rw [h1]; exact hnd
  apply gpass_fixed (gpassN B g0) hndB
  intro p hp
  have hk : p.1 ∈ g0.map Prod.fst := by
    rw [← h1]
    exact List.mem_map.mpr ⟨p, hp, rfl⟩
  exact (h2 p hp).2 (by have := hB p.1 hk; omega)

/-- Witness for C8 (amended) at a concrete acyclic table
`{a: "x", b: "\x7b\x7b params.a \x7d\x7d"}` with rank `a ↦ 0`, `b ↦ 1` and bound
`B = 2`. -/
theorem resolve_globals_acyclic_terminates_witness :
    ((([("a", [GPart.glit "x"]), ("b", [GPart.gref "a"])] :
        List (String × GVal)).map Prod.fst).Nodup ∧
      (∀ p ∈ ([("a", [GPart.glit "x"]), ("b", [GPart.gref "a"])] :
          List (String × GVal)), ∀ k2 ∈ grefs p.2,
        (List.lookup k2 ([("a", [GPart.glit "x"]),
          ("b", [GPart.gref "a"])] :
            List (String × GVal))).isSome = true ∧
        (if k2 = "b" then 1 else 0) < (if p.1 = "b" then 1 else 0)) ∧
      (∀ k ∈ (([("a", [GPart.glit "x"]), ("b", [GPart.gref "a"])] :
          List (String × GVal)).map Prod.fst),
        (if k = "b" then 1 else 0) < 2)) ∧
    gpass (gpassN 2 [("a", [GPart.glit "x"]), ("b", [GPart.gref "a"])]) =
      (gpassN 2 [("a", [GPart.glit "x"]), ("b", [GPart.gref "a"])],
        false) :=
  ⟨⟨by decide, by decide, by decide⟩,
    resolve_globals_acyclic_terminates
      [("a", [GPart.glit "x"]), ("b", [GPart.gref "a"])]
      (fun k => if k = "b" then 1 else 0) 2 (by decide) (by decide)
      (by decide)⟩

end ReadBreak
